import Mathlib

/-!
# Verification of the AI-inquiry retrieval and recommendation pipeline

Shallow embedding of the core of `ai_inquiry` (views `AIChatView.post`, services
`retrieval.py`, `vector_retrieval.py`, `smart_recommendation.py`,
`user_profile.py`) of the dental-clinic backend, together with proofs about the
knowledge retriever, the rule-based doctor ranker, the chat-turn orchestration
(deduplication, answer reconciliation, persistence) and the collaborative /
content-based recommenders.

Python strings are modelled as `List Char`; Python floats as `ℚ` where the code
only does field arithmetic and comparisons, and as `ℝ` where square roots are
taken (cosine norms).  Database tables are modelled as lists of records in table
order; the external LLM and the embedding encoder are modelled as inputs (their
outcome, success with a text/vector or failure, is a parameter).
-/

namespace AIInquiry

/-! ## Strings: Python `str` as `List Char` -/

/-- Python strings, modelled as lists of characters. -/
abbrev PyStr := List Char

/-- Lift a Lean string literal to a `PyStr`. -/
def pys (s : String) : PyStr := s.data

/-- Python `str.lower()` (sufficient for the ASCII/CJK data used here). -/
def lowerStr (s : PyStr) : PyStr := s.map Char.toLower

/-- Does `s` start with `p`?  (Models Python `str.startswith`, used to build
the substring test.) -/
def leadsWith : PyStr → PyStr → Bool
  | _, [] => true
  | [], _ :: _ => false
  | c :: cs, d :: ds => c == d && leadsWith cs ds

/-- Python's `needle in hay` substring test on strings. -/
def hasSub : PyStr → PyStr → Bool
  | [], needle => needle.isEmpty
  | c :: cs, needle => leadsWith (c :: cs) needle || hasSub cs needle

/-- Django `icontains`: case-insensitive substring. -/
def ciHas (hay needle : PyStr) : Bool := hasSub (lowerStr hay) (lowerStr needle)

/-- Django `icontains` on a nullable column: SQL `NULL LIKE …` is false. -/
def ciHasOpt : Option PyStr → PyStr → Bool
  | none, _ => false
  | some h, n => ciHas h n

/-- Django `iexact`: case-insensitive equality. -/
def ciEq (a b : PyStr) : Bool := lowerStr a == lowerStr b

/-- Python `str.strip()`. -/
def stripStr (s : PyStr) : PyStr :=
  ((s.dropWhile Char.isWhitespace).reverse.dropWhile Char.isWhitespace).reverse

theorem leadsWith_iff (s p : PyStr) : leadsWith s p = true ↔ ∃ t, s = p ++ t := by
  induction p generalizing s with
  | nil => simp [leadsWith]
  | cons d ds ih =>
    cases s with
    | nil => simp [leadsWith]
    | cons c cs =>
      simp only [leadsWith, Bool.and_eq_true, beq_iff_eq, ih, List.cons_append,
        List.cons.injEq]
      constructor
      · rintro ⟨rfl, t, rfl⟩; exact ⟨t, rfl, rfl⟩
      · rintro ⟨t, rfl, rfl⟩; exact ⟨rfl, t, rfl⟩

theorem hasSub_iff (hay needle : PyStr) :
    hasSub hay needle = true ↔ ∃ s t, hay = s ++ needle ++ t := by
  induction hay with
  | nil =>
    simp only [hasSub, List.isEmpty_iff]
    constructor
    · rintro rfl; exact ⟨[], [], rfl⟩
    · rintro ⟨s, t, h⟩
      rcases List.append_eq_nil.mp (List.append_eq_nil.mp h.symm).1 with ⟨_, h2⟩
      exact h2
  | cons c cs ih =>
    simp only [hasSub, Bool.or_eq_true, leadsWith_iff, ih]
    constructor
    · rintro (⟨t, h⟩ | ⟨s, t, h⟩)
      · exact ⟨[], t, by simp [h]⟩
      · exact ⟨c :: s, t, by simp [h]⟩
    · rintro ⟨s, t, h⟩
      cases s with
      | nil => exact Or.inl ⟨t, by simpa using h⟩
      | cons a as =>
        simp only [List.cons_append, List.cons.injEq] at h
        exact Or.inr ⟨as, t, h.2⟩

theorem hasSub_trans {a b c : PyStr} (h₁ : hasSub a b = true)
    (h₂ : hasSub b c = true) : hasSub a c = true := by
  rcases (hasSub_iff a b).mp h₁ with ⟨s, t, rfl⟩
  rcases (hasSub_iff b c).mp h₂ with ⟨u, v, rfl⟩
  exact (hasSub_iff _ _).mpr ⟨s ++ u, v ++ t, by simp⟩

theorem hasSub_of_append_left {a b : PyStr} : hasSub (a ++ b) a = true :=
  (hasSub_iff _ _).mpr ⟨[], b, by simp⟩

theorem hasSub_of_append_right {a b : PyStr} : hasSub (a ++ b) b = true :=
  (hasSub_iff _ _).mpr ⟨a, [], by simp⟩

/-! ## Tokenisation (`re.findall(r'[一-龥]+|\d+|[a-zA-Z]+', …)`) -/

/-- Character classes distinguished by the tokenising regular expression. -/
inductive CharKind where
  | cjk
  | digit
  | latin
deriving DecidableEq, Repr

/-- Is `c` a CJK unified ideograph in the range the source regex matches? -/
def isCJK (c : Char) : Bool := 0x4e00 ≤ c.val && c.val ≤ 0x9fa5

/-- The class of a character, `none` for separators. -/
def kindOf (c : Char) : Option CharKind :=
  if isCJK c then some .cjk
  else if c.isDigit then some .digit
  else if c.isAlpha then some .latin
  else none

/-- One step of the run-splitting scan: state is
(emitted tokens, current run reversed, class of current run). -/
def tokStep (st : List PyStr × PyStr × Option CharKind) (c : Char) :
    List PyStr × PyStr × Option CharKind :=
  let (toks, cur, curk) := st
  match kindOf c with
  | none => (if cur = [] then toks else toks ++ [cur.reverse], [], none)
  | some k =>
      if curk = some k then (toks, c :: cur, curk)
      else (if cur = [] then toks else toks ++ [cur.reverse], [c], some k)

/-- `re.findall(r'[一-龥]+|\d+|[a-zA-Z]+', s)`: maximal runs of CJK
characters, digits, or latin letters. -/
def findWords (s : PyStr) : List PyStr :=
  let (toks, cur, _) := s.foldl tokStep ([], [], none)
  if cur = [] then toks else toks ++ [cur.reverse]

/-- `re.findall(r'[一-龥]+', s)`: maximal runs of CJK characters only
(digits and letters act as separators). -/
def cjkStep (st : List PyStr × PyStr) (c : Char) : List PyStr × PyStr :=
  let (toks, cur) := st
  if isCJK c then (toks, c :: cur)
  else (if cur = [] then toks else toks ++ [cur.reverse], [])

/-- All maximal CJK runs of a string. -/
def cjkRuns (s : PyStr) : List PyStr :=
  let (toks, cur) := s.foldl cjkStep ([], [])
  if cur = [] then toks else toks ++ [cur.reverse]

/-- The stop-word set of `retrieve_knowledge_snippets`. -/
def stopWordsK : List PyStr :=
  [pys "我", pys "了", pys "的", pys "是", pys "在", pys "有", pys "和", pys "就",
   pys "不", pys "人", pys "都", pys "一", pys "一个", pys "上", pys "也", pys "很",
   pys "到", pys "说", pys "要", pys "去", pys "你", pys "会", pys "着", pys "没有",
   pys "看", pys "好", pys "自己", pys "这", pys "吗", pys "呢", pys "啊", pys "呀",
   pys "吧", pys "么", pys "什么", pys "怎么", pys "如何", pys "为什么", pys "怎么办",
   pys "能", pys "可以", pys "应该", pys "需要", pys "想", pys "请", pys "帮", pys "给"]

/-- The stop-word set of the doctor-matching branch of
`retrieve_doctors_by_intent` (adds 医生 and 擅长). -/
def stopWordsD : List PyStr := stopWordsK ++ [pys "医生", pys "擅长"]

/-- Keyword extraction shared by both retrieval functions: tokenise, drop
stop words and tokens shorter than 2.  (The caller decides what to do when the
result is empty.) -/
def extractKeywords (stops : List PyStr) (q : PyStr) : List PyStr :=
  (findWords q).filter fun w => !w.isEmpty && !stops.contains w && decide (2 ≤ w.length)

/-- Keywords for knowledge retrieval; falls back to the whole question when
nothing survives filtering (`if not keywords: keywords = [question]`). -/
def keywordsOf (q : PyStr) : List PyStr :=
  let ks := extractKeywords stopWordsK q
  if ks = [] then [q] else ks

/-! ## Data model (`ai_inquiry.models`, `doctors.models`) -/

/-- Row of `DentalKnowledgeArticle`.  `question_pattern` and `tags` are
nullable columns; `embedding` is a nullable JSON list of floats;
`updatedAt` abstracts `updated_at` as a sortable stamp. -/
structure Article where
  id : Nat
  title : PyStr
  question_pattern : Option PyStr
  content : PyStr
  tags : Option PyStr
  embedding : Option (List ℝ)
  is_active : Bool
  updatedAt : Nat

/-- Row of `doctors.Doctor` (the fields consumed here).  Blank text columns
are modelled as the empty string, `hospital` carries the hospital's name. -/
structure Doctor where
  id : Nat
  name : PyStr
  title : PyStr
  specialty : PyStr
  introduction : PyStr
  experience : PyStr
  is_online : Bool
  score : ℚ
  reviews : ℤ
  hospital : Option PyStr
deriving DecidableEq, Repr

/-- A structured intent as parsed from the LLM's JSON: the three fields of the
dict, `none` when the key is absent or holds JSON `null`. -/
structure IntentDict where
  disease : Option PyStr
  dept : Option PyStr
  priority : Option PyStr
deriving DecidableEq, Repr

/-- The default intent substituted on any intent-extraction failure. -/
def defaultIntent : IntentDict :=
  { disease := some (pys "未知"), dept := none, priority := some (pys "info") }

/-- A doctor summary dict as built by `retrieve_doctors_by_intent`
(both the rule-based and the smart branch).  `recommend_score` is only present
in smart results. -/
structure DocOut where
  id : Nat
  name : PyStr
  department_name : PyStr
  title : PyStr
  specialty : PyStr
  introduction : PyStr
  experience : PyStr
  good_at : PyStr
  is_online : Bool
  score : ℚ
  reviews : ℤ
  is_exact_match : Bool
  recommend_score : Option ℚ
deriving DecidableEq, Repr

/-- Row of `AIRecommendationLog` as read back during deduplication:
`structured_intent` is `none` when the stored JSON is null or not a dict;
each entry of `recommended_doctors` is the extracted doctor id (`some`) for
ints and dicts carrying an `id` key, `none` for anything else. -/
structure LogEntry where
  intent : Option IntentDict
  doctors : List (Option Nat)

/-- Row of `UserBehavior` (fields consumed by the recommenders). -/
structure Behavior where
  userId : Nat
  action : PyStr
  doctorId : Option Nat
  score : ℚ
deriving DecidableEq, Repr

/-- Row of `UserProfile` (fields consumed by the recommenders). -/
structure ProfileRec where
  userId : Nat
  specialty_preference : List (PyStr × ℚ)
  hospital_preference : List (PyStr × ℚ)
  price_sensitivity : ℚ
  time_preference : Option PyStr
  doctor_feature_preference : List (PyStr × ℚ)
deriving DecidableEq, Repr

/-- The profile created by `UserProfile.objects.get_or_create` when no row
exists: all model-field defaults. -/
def defaultProfile (uid : Nat) : ProfileRec :=
  { userId := uid, specialty_preference := [], hospital_preference := [],
    price_sensitivity := 1/2, time_preference := none,
    doctor_feature_preference := [] }

/-! ## Stable sorting

Python's `list.sort` is stable; `sort(key=…, reverse=True)` is a stable
descending sort, and Django's `order_by` with a key ending in the primary key
is a total order.  Both are modelled by a stable insertion sort parameterised
by a boolean "goes before or at" relation. -/

/-- Insert `x` before the first element `y` with `le x y`.  For
`le x y = (key y ≤ key x)` this realises a *stable descending* sort: an
element inserted from the left stays in front of later elements with an equal
key. -/
def insertBy (le : α → α → Bool) (x : α) : List α → List α
  | [] => [x]
  | y :: ys => if le x y then x :: y :: ys else y :: insertBy le x ys

/-- Stable insertion sort with respect to `le`. -/
def insSortBy (le : α → α → Bool) : List α → List α
  | [] => []
  | x :: xs => insertBy le x (insSortBy le xs)

theorem insertBy_perm (le : α → α → Bool) (x : α) (l : List α) :
    List.Perm (insertBy le x l) (x :: l) := by
  induction l with
  | nil => rfl
  | cons y ys ih =>
    by_cases h : le x y = true
    · simp [insertBy, h]
    · simp only [insertBy, h, if_false]
      exact (ih.cons y).trans (List.Perm.swap x y ys)

theorem insSortBy_perm (le : α → α → Bool) (l : List α) :
    List.Perm (insSortBy le l) l := by
  induction l with
  | nil => rfl
  | cons x xs ih => exact (insertBy_perm le x _).trans (ih.cons x)

theorem insertBy_pairwise (le : α → α → Bool)
    (htot : ∀ a b, le a b = true ∨ le b a = true)
    (htrans : ∀ a b c, le a b = true → le b c = true → le a c = true)
    (x : α) (l : List α) (hl : l.Pairwise (le · · = true)) :
    (insertBy le x l).Pairwise (le · · = true) := by
  induction l with
  | nil => simp [insertBy]
  | cons y ys ih =>
    rcases List.pairwise_cons.mp hl with ⟨hy, hys⟩
    by_cases h : le x y = true
    · simp only [insertBy, h, if_true]
      refine List.pairwise_cons.mpr ⟨?_, hl⟩
      intro z hz
      rcases List.mem_cons.mp hz with rfl | hz
      · exact h
      · exact htrans x y z h (hy z hz)
    · have hyx : le y x = true := (htot x y).resolve_left h
      simp only [insertBy, h, if_false]
      refine List.pairwise_cons.mpr ⟨?_, ih hys⟩
      intro z hz
      rcases List.mem_cons.mp ((insertBy_perm le x ys).mem_iff.mp hz) with rfl | hz
      · exact hyx
      · exact hy z hz

theorem insSortBy_pairwise (le : α → α → Bool)
    (htot : ∀ a b, le a b = true ∨ le b a = true)
    (htrans : ∀ a b c, le a b = true → le b c = true → le a c = true)
    (l : List α) : (insSortBy le l).Pairwise (le · · = true) := by
  induction l with
  | nil => simp [insSortBy]
  | cons x xs ih => exact insertBy_pairwise le htot htrans x _ ih

/-! ## Vector retrieval (`vector_retrieval.py`) -/

/-- `np.dot` of two vectors (equal length in the code). -/
def dotR (v w : List ℝ) : ℝ := (List.zipWith (· * ·) v w).sum

/-- Sum of squares of a vector's entries. -/
def sumSq (v : List ℝ) : ℝ := (v.map (· ^ 2)).sum

/-- `np.linalg.norm`. -/
noncomputable def normR (v : List ℝ) : ℝ := Real.sqrt (sumSq v)

/-- The helper `cosine_similarity(vec1, vec2)`: 0 when either norm is 0,
otherwise the cosine. -/
noncomputable def cosSim (v w : List ℝ) : ℝ :=
  if normR v = 0 ∨ normR w = 0 then 0 else dotR v w / (normR v * normR w)

/-- One entry of the batch similarity computation: dot product divided by the
product of norms, with `np.where(norms == 0, 1, norms)` replacing a zero
denominator by 1. -/
noncomputable def batchSim (q a : List ℝ) : ℝ :=
  dotR a q / (if normR a * normR q = 0 then 1 else normR a * normR q)

/-- `results.sort(key=lambda x: x[1], reverse=True)`: stable descending sort
of (article, similarity) pairs. -/
noncomputable def sortPairsDesc (l : List (Article × ℝ)) : List (Article × ℝ) :=
  insSortBy (fun p r => decide (r.2 ≤ p.2)) l

/-- Truthiness of a stored embedding (`if article.embedding:`), false for SQL
null and for the empty list. -/
def embTruthy (a : Article) : Bool :=
  match a.embedding with
  | some (_ :: _) => true
  | _ => false

/-- The stored embedding of an article known to have one. -/
def embOf (a : Article) : List ℝ := a.embedding.getD []

/-- The batch branch of `retrieve_knowledge_by_vector` (step 3–5 of the
source): batch similarities, threshold filter, stable descending sort, top
`limit`. -/
noncomputable def batchRank (q : List ℝ) (valid : List Article)
    (threshold : ℝ) (limit : Nat) : List Article :=
  let results := (valid.map fun a => (a, batchSim q (embOf a))).filter
    fun p => decide (threshold ≤ p.2)
  ((sortPairsDesc results).map Prod.fst).take limit

/-- The per-article fallback branch of the same function (the `except` arm):
individual `cosine_similarity` calls over `valid_articles[:max_articles]`,
same filter, sort and truncation. -/
noncomputable def perArticleRank (q : List ℝ) (valid : List Article)
    (threshold : ℝ) (limit maxArticles : Nat) : List Article :=
  let results := ((valid.take maxArticles).map fun a => (a, cosSim q (embOf a))).filter
    fun p => decide (threshold ≤ p.2)
  ((sortPairsDesc results).map Prod.fst).take limit

/-- Django `order_by('-updated_at', '-id')` comparison. -/
def updatedDescLe (a b : Article) : Bool :=
  if a.updatedAt ≠ b.updatedAt then decide (b.updatedAt < a.updatedAt)
  else decide (b.id ≤ a.id)

/-- `retrieve_knowledge_by_vector(question, limit, threshold, max_articles)`.
`encoded` is the outcome of encoding the question: `none` when the embedding
model is unavailable or `encode` raises (the function then returns `[]`).
`table` is the `DentalKnowledgeArticle` table in database order. -/
noncomputable def retrieveKnowledgeByVector (encoded : Option (List ℝ))
    (table : List Article) (limit : Nat) (threshold : ℝ) (maxArticles : Nat) :
    List Article :=
  match encoded with
  | none => []
  | some q =>
    let eligible := table.filter fun a => a.is_active && a.embedding.isSome
    if eligible.length = 0 then []
    else
      let capped := if maxArticles < eligible.length
        then (insSortBy updatedDescLe eligible).take maxArticles else eligible
      let valid := capped.filter embTruthy
      if valid.isEmpty then []
      else batchRank q valid threshold limit

/-! ## Lexical retrieval (`retrieve_knowledge_snippets`, keyword branch) -/

/-- The OR'd `Q` filter built over the extracted keywords and the full
question: any keyword (or the question itself) is a case-insensitive
substring of `question_pattern`, `title` or `content`. -/
def articleMatch (ks : List PyStr) (question : PyStr) (a : Article) : Bool :=
  (ks.any fun k =>
    ciHasOpt a.question_pattern k || ciHas a.title k || ciHas a.content k)
  || (ciHasOpt a.question_pattern question || ciHas a.title question
      || ciHas a.content question)

/-- `QuerySet.distinct()` / Python `set(...)`: keep the first occurrence of
each key. -/
def dedupBy (key : α → Nat) (l : List α) : List α :=
  l.foldl (fun acc a => if acc.any (fun b => key b == key a) then acc else acc ++ [a]) []

/-- `QuerySet.distinct()` on article rows keyed by primary key. -/
def dedupById (l : List Article) : List Article := dedupBy (·.id) l

/-- The keyword fallback of `retrieve_knowledge_snippets` (everything after
the vector attempt): empty when no active article exists, otherwise the first
`limit` active articles matching the keyword query, in table order. -/
def lexicalRetrieve (table : List Article) (question : PyStr) (limit : Nat) :
    List Article :=
  if !table.any (·.is_active) then []
  else
    (dedupById ((table.filter (·.is_active)).filter
      (articleMatch (keywordsOf question) question))).take limit

/-- `retrieve_knowledge_snippets(question, limit, use_vector)`: try vector
retrieval when enabled and some active article has a non-null embedding; if it
yields nothing (or raises — impossible here, the embedding failure is folded
into `encoded = none`), fall back to the keyword branch. -/
noncomputable def retrieveKnowledgeSnippets (useVector : Bool)
    (encoded : Option (List ℝ)) (table : List Article) (question : PyStr)
    (limit : Nat) : List Article :=
  let hasVec := table.any fun a => a.is_active && a.embedding.isSome
  if useVector && hasVec then
    let vr := retrieveKnowledgeByVector encoded table limit (3/10 : ℝ) 150
    if !vr.isEmpty then vr else lexicalRetrieve table question limit
  else lexicalRetrieve table question limit

/-! ## Rule-based doctor ranking (`retrieve_doctors_by_intent`, basic branch) -/

/-- `SPECIALTY_MAPPING` in its source (dict-literal) order: colloquial term to
canonical specialty. -/
def specialtyPairs : List (PyStr × PyStr) :=
  [(pys "正畸", pys "正畸"), (pys "矫正", pys "正畸"),
   (pys "牙齿矫正", pys "正畸"), (pys "牙矫正", pys "正畸"),
   (pys "种植", pys "种植"), (pys "种植牙", pys "种植"),
   (pys "补牙", pys "补牙"), (pys "根管", pys "根管"),
   (pys "根管治疗", pys "根管"),
   (pys "牙周", pys "牙周"), (pys "牙周病", pys "牙周"),
   (pys "口腔内科", pys "口腔内科"), (pys "口腔外科", pys "口腔外科"),
   (pys "儿童口腔", pys "儿童口腔"), (pys "口腔黏膜", pys "口腔黏膜"),
   (pys "龋齿", pys "龋齿"), (pys "蛀牙", pys "龋齿"), (pys "牙髓", pys "牙髓"),
   (pys "拔牙", pys "拔牙"), (pys "洗牙", pys "洗牙"), (pys "美白", pys "美白")]

/-- The four generic department tags excluded from knowledge-tag expansion. -/
def genericTags : List PyStr :=
  [pys "口腔内科", pys "口腔外科", pys "正畸科", pys "儿童口腔科"]

/-- `Q(specialty__icontains=t) | Q(introduction__icontains=t) |
Q(experience__icontains=t)`. -/
def qTriple (t : PyStr) (d : Doctor) : Bool :=
  ciHas d.specialty t || ciHas d.introduction t || ciHas d.experience t

/-- Split a `tags` column on commas, strip whitespace, drop empties. -/
def tagsOf (ts : PyStr) : List PyStr :=
  ((ts.splitOn ',').map stripStr).filter (· ≠ [])

/-- The knowledge-tag predicates (step 2 of the query build): one
three-field predicate for every non-generic tag of every supplied article
with a truthy `tags` column. -/
def tagPreds (kn : List Article) : List (Doctor → Bool) :=
  kn.foldl (fun acc k =>
    match k.tags with
    | some ts =>
        if ts ≠ [] then
          acc ++ (((tagsOf ts).filter fun t => !genericTags.contains t).map qTriple)
        else acc
    | none => acc) []

/-- The canonical specialty of the first mapping key occurring in the whole
question (first dict-iteration-order hit wins). -/
def wholeQuestionSpecialty (question : PyStr) : Option PyStr :=
  (specialtyPairs.find? fun p => hasSub question p.1).map (·.2)

/-- The per-keyword specialty scan (step 3 of the query build, run only when
the whole-question scan found nothing): accumulates `specialty__icontains`
predicates and the last matched canonical specialty. -/
def keywordSpecialtyScan (ks : List PyStr) :
    List (Doctor → Bool) × Option PyStr :=
  ks.foldl (fun st k =>
    let (acc, matched) := st
    if specialtyPairs.any (·.1 == k) then
      let db := (((specialtyPairs.find? (·.1 == k)).map (·.2)).getD [])
      (acc ++ ([fun d => ciHas d.specialty db] : List (Doctor → Bool)), some db)
    else if specialtyPairs.any (·.1 == k) ||
        specialtyPairs.any (fun p => hasSub k p.1) then
      match specialtyPairs.find? (fun p => hasSub k p.1 || hasSub p.1 k) with
      | some p =>
          (acc ++ ([fun d => ciHas d.specialty p.2] : List (Doctor → Bool)), some p.2)
      | none => (acc, matched)
    else (acc, matched)) ([], none)

/-- Person-name shaped keywords (length 2–4) matched against `name`. -/
def namePreds (ks : List PyStr) : List (Doctor → Bool) :=
  (ks.filter fun k => decide (2 ≤ k.length) && decide (k.length ≤ 4)).map
    fun k d => ciHas d.name k

/-- Step 3 of the query build: keyword-derived predicates, used only when the
intent and the knowledge tags produced no condition and the question is
non-empty. -/
def questionPreds (question : PyStr) : List (Doctor → Bool) :=
  let ks5 := (extractKeywords stopWordsD question).take 5
  match wholeQuestionSpecialty question with
  | some db => ([fun d => ciHas d.specialty db] : List (Doctor → Bool)) ++ namePreds ks5
  | none =>
    let (specPreds, matched) := keywordSpecialtyScan ks5
    specPreds ++ namePreds ks5 ++
      (if matched.isNone then ks5.map qTriple else [])

/-- The full OR'd filter predicate list of `retrieve_doctors_by_intent`
(ordered as accumulated in the source; OR semantics make the order
irrelevant). -/
def buildPreds (dept disease : PyStr) (kn : List Article) (question : PyStr) :
    List (Doctor → Bool) :=
  let p1 := (if dept ≠ [] then [qTriple dept] else []) ++
    (if disease ≠ [] ∧ disease ≠ pys "未知" then [qTriple disease] else [])
  let p2 := p1 ++ tagPreds kn
  if p2.isEmpty ∧ question ≠ [] then p2 ++ questionPreds question else p2

/-- Does a doctor satisfy the OR of the predicate list? -/
def matchesPreds (preds : List (Doctor → Bool)) (d : Doctor) : Bool :=
  preds.any (· d)

/-- `QuerySet.distinct()` on doctors. -/
def dedupDoctors (l : List Doctor) : List Doctor := dedupBy (·.id) l

/-- `Case(When(cond₁, then=v₁), …, default=dflt)`: the value of the first
matching condition. -/
def priorityOf (conds : List ((Doctor → Bool) × Nat)) (dflt : Nat)
    (d : Doctor) : Nat :=
  ((conds.find? fun c => c.1 d).map (·.2)).getD dflt

/-- The priority conditions used when the filter matched
(`specialty` exact = 1, `specialty` contains = 2, name word = 2,
`introduction`/`experience` contains = 3, default 4). -/
def prioExact (dept disease : PyStr) (question : PyStr) :
    List ((Doctor → Bool) × Nat) :=
  (if dept ≠ [] then [(fun d => ciEq d.specialty dept, 1)] else []) ++
  (if disease ≠ [] ∧ disease ≠ pys "未知" then
    [(fun d => ciEq d.specialty disease, 1)] else []) ++
  (if dept ≠ [] then [(fun d => ciHas d.specialty dept, 2)] else []) ++
  (if disease ≠ [] ∧ disease ≠ pys "未知" then
    [(fun d => ciHas d.specialty disease, 2)] else []) ++
  (((cjkRuns question).filter fun w =>
      decide (2 ≤ w.length) && decide (w.length ≤ 4)).map
    fun w => ((fun d => ciHas d.name w), 2)) ++
  (if dept ≠ [] then [(fun d => ciHas d.introduction dept, 3),
    (fun d => ciHas d.experience dept, 3)] else [])

/-- The priority conditions used when the filter matched nothing or no filter
existed (specialty term or name-shaped CJK word = 1, default 2). -/
def prioFallback (question : PyStr) : List ((Doctor → Bool) × Nat) :=
  match wholeQuestionSpecialty question with
  | some db => ([((fun d => ciHas d.specialty db), 1)] : List ((Doctor → Bool) × Nat))
  | none =>
    (cjkRuns question).foldl (fun acc w =>
      let acc := if specialtyPairs.any (·.1 == w) then
          acc ++ [((fun d => ciHas d.specialty
            ((((specialtyPairs.find? (·.1 == w))).map (·.2)).getD [])), 1)]
        else acc
      if 2 ≤ w.length ∧ w.length ≤ 4 then
        acc ++ [((fun d => ciHas d.name w), 1)]
      else acc) []

/-- Django `order_by("match_priority", "-is_online", "-score", "-reviews",
"id")` as a boolean total order (`key` is the annotated priority; pass a
constant for orderings without the priority column). -/
def doctorLe (key : Doctor → Nat) (d₁ d₂ : Doctor) : Bool :=
  if key d₁ ≠ key d₂ then decide (key d₁ < key d₂)
  else if d₁.is_online ≠ d₂.is_online then d₁.is_online
  else if d₁.score ≠ d₂.score then decide (d₂.score < d₁.score)
  else if d₁.reviews ≠ d₂.reviews then decide (d₂.reviews < d₁.reviews)
  else decide (d₁.id ≤ d₂.id)

/-- Annotate-and-order: when priority conditions exist, order by the
`Case`-annotated priority then the fixed tie-break chain; otherwise by the
fixed chain alone. -/
def rankWith (conds : List ((Doctor → Bool) × Nat)) (dflt : Nat)
    (ds : List Doctor) : List Doctor :=
  if conds.isEmpty then insSortBy (doctorLe fun _ => 0) ds
  else insSortBy (doctorLe (priorityOf conds dflt)) ds

/-- The ordered doctor list and the `has_exact_match` flag of the basic
branch (everything before the `limit*2` slice). -/
def ruleBasedCore (intent : IntentDict) (question : PyStr) (kn : List Article)
    (doctors : List Doctor) : List Doctor × Bool :=
  let dept := intent.dept.getD []
  let disease := intent.disease.getD []
  let preds := buildPreds dept disease kn question
  if preds.isEmpty then (rankWith (prioFallback question) 2 doctors, false)
  else
    let matched := dedupDoctors (doctors.filter (matchesPreds preds))
    if matched.isEmpty then (rankWith (prioFallback question) 2 doctors, false)
    else (rankWith (prioExact dept disease question) 4 matched, true)

/-- The composite `good_at` string: labelled non-empty fields joined by a
full-width semicolon, or the fixed placeholder. -/
def goodAt (d : Doctor) : PyStr :=
  let parts := (if d.specialty ≠ [] then [pys "专科：" ++ d.specialty] else []) ++
    (if d.introduction ≠ [] then [pys "简介：" ++ d.introduction] else []) ++
    (if d.experience ≠ [] then [pys "经验：" ++ d.experience] else [])
  if parts.isEmpty then pys "暂无详细信息" else List.intercalate (pys "；") parts

/-- The summary dict built for one doctor in the basic branch. -/
def mkDocOut (exact : Bool) (d : Doctor) : DocOut :=
  { id := d.id, name := d.name, department_name := d.hospital.getD [],
    title := d.title, specialty := d.specialty,
    introduction := d.introduction, experience := d.experience,
    good_at := goodAt d, is_online := d.is_online, score := d.score,
    reviews := d.reviews, is_exact_match := exact, recommend_score := none }

/-- The whole rule-based ranking as an (uncapped) ordered list of summary
dicts. -/
def ruleBasedRankingAll (intent : IntentDict) (question : PyStr)
    (kn : List Article) (doctors : List Doctor) : List DocOut :=
  (ruleBasedCore intent question kn doctors).1.map
    (mkDocOut (ruleBasedCore intent question kn doctors).2)

/-- The basic branch of `retrieve_doctors_by_intent`: empty when no doctor
exists, otherwise the ranked list sliced to `limit * 2` and rendered as
summary dicts. -/
def basicRecommend (intent : IntentDict) (question : PyStr)
    (kn : List Article) (limit : Nat) (doctors : List Doctor) : List DocOut :=
  if doctors.isEmpty then []
  else
    ((ruleBasedCore intent question kn doctors).1.take (limit * 2)).map
      (mkDocOut (ruleBasedCore intent question kn doctors).2)

/-- One entry of a `hybrid_recommend` result. -/
structure SmartRec where
  doctor : Doctor
  score : ℚ

/-- The summary dict built for one smart-recommendation entry. -/
def smartToOut (r : SmartRec) : DocOut :=
  { id := r.doctor.id, name := r.doctor.name,
    department_name := r.doctor.hospital.getD [], title := r.doctor.title,
    specialty := r.doctor.specialty, introduction := r.doctor.introduction,
    experience := r.doctor.experience, good_at := goodAt r.doctor,
    is_online := r.doctor.is_online, score := r.doctor.score,
    reviews := r.doctor.reviews, is_exact_match := false,
    recommend_score := some r.score }

/-- `retrieve_doctors_by_intent`.  `behaviorCount` is the user's
`UserBehavior` row count; `hybridOutcome` is the outcome of
`hybrid_recommend` (`none` when it raises — the caught-exception fallback). -/
def retrieveDoctorsByIntent (useSmart : Bool) (userId : Option Nat)
    (behaviorCount : Nat) (hybridOutcome : Option (List SmartRec))
    (intent : IntentDict) (question : PyStr) (kn : List Article)
    (limit : Nat) (doctors : List Doctor) : List DocOut :=
  let useSmart' := if useSmart && userId.isSome then
      (if behaviorCount < 20 then false else useSmart)
    else useSmart
  if useSmart' && userId.isSome then
    match hybridOutcome with
    | some recs =>
        let result := recs.map smartToOut
        if !result.isEmpty then result
        else basicRecommend intent question kn limit doctors
    | none => basicRecommend intent question kn limit doctors
  else basicRecommend intent question kn limit doctors

/-! ## Chat-turn orchestration (`AIChatView.post`) -/

/-- The outcome of one `call_llm` invocation: generated text, or an
`LLMCallError` carrying its message. -/
inductive LLMResult where
  | ok : PyStr → LLMResult
  | fail : PyStr → LLMResult
deriving DecidableEq, Repr

/-- Step 3 of the view: `json.loads` the raw intent inside nested
`try`/`except`, substituting the default intent on call failure or JSON
parse failure.  `parse` models `json.loads` restricted to dict results
(`none` = `JSONDecodeError`). -/
def resolveIntent (parse : PyStr → Option IntentDict) (r : LLMResult) :
    IntentDict :=
  match r with
  | .ok raw => (parse raw).getD defaultIntent
  | .fail _ => defaultIntent

/-- The canned apology answer used when the answer-generation call fails. -/
def apologyAnswer (err : PyStr) : PyStr :=
  pys "抱歉，AI 服务暂时不可用，请稍后重试，或直接联系线下牙科医生就诊。（错误信息：" ++
    err ++ pys "）"

/-- Step 6 of the view: the final answer text (LLM output, or the apology on
`LLMCallError`). -/
def answerText (r : LLMResult) : PyStr :=
  match r with
  | .ok t => t
  | .fail e => apologyAnswer e

/-- The doctor ids already surfaced for the same intent in the user's 20 most
recent `AIRecommendationLog` rows (`logs` is most-recent-first, as produced by
`order_by("-created_at")`). -/
def usedDoctorIds (logs : List LogEntry) (curDisease curDept : Option PyStr) :
    List Nat :=
  ((logs.take 20).filter fun l =>
    match l.intent with
    | some it => it.disease == curDisease && it.dept == curDept
    | none => false).foldl (fun acc l => acc ++ l.doctors.filterMap id) []

/-- The deduplication step (step 5 of the view): drop candidates whose id was
already recommended for the same intent; if that empties a non-empty
candidate list, fall back to the unfiltered list. -/
def dedupCandidates (logs : List LogEntry) (curDisease curDept : Option PyStr)
    (cands : List DocOut) : List DocOut :=
  let used := usedDoctorIds logs curDisease curDept
  let filtered := cands.filter fun d => !used.contains d.id
  if filtered.isEmpty ∧ ¬cands.isEmpty then cands else filtered

/-- The name patterns a candidate is searched for in the generated answer. -/
def namePatterns (name : PyStr) : List PyStr :=
  [name,
   name ++ pys "医生", name ++ pys "主任", name ++ pys "医师", name ++ pys "大夫",
   pys "推荐" ++ name, pys "为您推荐" ++ name, pys "我为您推荐" ++ name,
   pys "推荐您" ++ name]

/-- The negative-recommendation phrases checked in the answer. -/
def noRecommendationKeywords : List PyStr :=
  [pys "暂未找到", pys "没有找到", pys "未找到", pys "暂未提供", pys "没有提供",
   pys "建议到", pys "建议您到", pys "建议前往", pys "建议联系", pys "建议您联系",
   pys "系统暂未", pys "系统没有", pys "没有特别匹配", pys "暂未找到匹配"]

/-- `doctor_names = {d.get('name'): d for d in recommended_doctors if
d.get('name')}`: an insertion-ordered dict from name to candidate (later
duplicates overwrite the value in place). -/
def upsert (m : List (PyStr × DocOut)) (k : PyStr) (v : DocOut) :
    List (PyStr × DocOut) :=
  match m with
  | [] => [(k, v)]
  | (k₀, v₀) :: t => if k₀ = k then (k₀, v) :: t else (k₀, v₀) :: upsert t k v

/-- Build the `doctor_names` dict (skipping falsy names). -/
def buildDoctorNames (cands : List DocOut) : List (PyStr × DocOut) :=
  cands.foldl (fun m d => if d.name ≠ [] then upsert m d.name d else m) []

/-- The candidates whose name (in one of the listed patterns) occurs in the
answer, in dict order. -/
def matchedDoctors (dn : List (PyStr × DocOut)) (answer : PyStr) :
    List DocOut :=
  (dn.filter fun p => (namePatterns p.1).any fun pat => hasSub answer pat).map
    Prod.snd

/-- Step 7 of the view: reconcile the generated answer against the candidate
list, keeping only doctors the answer actually names (empty when no candidate
or no answer; the negative-phrasing branch re-forces the already-empty
list). -/
def reconcileAnswer (cands : List DocOut) (answer : PyStr) : List DocOut :=
  if ¬cands.isEmpty ∧ ¬answer.isEmpty then
    if (matchedDoctors (buildDoctorNames cands) answer).isEmpty then
      if noRecommendationKeywords.any (fun kw => hasSub answer kw) then
        if (buildDoctorNames cands).any (fun p => hasSub answer p.1) then
          matchedDoctors (buildDoctorNames cands) answer
        else []
      else matchedDoctors (buildDoctorNames cands) answer
    else matchedDoctors (buildDoctorNames cands) answer
  else []

/-- The persisted `AIRecommendationLog` row of one turn. -/
structure PersistedLog where
  raw_question : PyStr
  structured_intent : IntentDict
  recommended_doctors : List DocOut
deriving Repr

/-- The validated response payload of `AIChatResponseSerializer`. -/
structure ChatResponse where
  answer : PyStr
  recommended_doctors : List DocOut
  suggestion_level : PyStr
deriving DecidableEq, Repr

/-- One entry of `RecommendedDoctorSerializer`: `id` is an `IntegerField`;
`name`, `department_name`, `title` and `good_at` are `CharField`s with the
default `allow_blank=False`, so a blank value fails validation
(`next_available_time` has `allow_null=True` and is always `None` here). -/
def validDoctorPayload (d : DocOut) : Bool :=
  !d.name.isEmpty && !d.department_name.isEmpty && !d.title.isEmpty
    && !d.good_at.isEmpty

/-- `suggestion_level` is a `ChoiceField` over info/normal/urgent. -/
def validSuggestionLevel (s : PyStr) : Bool :=
  s == pys "info" || s == pys "normal" || s == pys "urgent"

/-- `AIChatResponseSerializer.is_valid`: `answer` is a `CharField` with the
default `allow_blank=False`, `recommended_doctors` a nested list of
`RecommendedDoctorSerializer`, `suggestion_level` a `ChoiceField`. -/
def validChatResponse (answer : PyStr) (docs : List DocOut) (level : PyStr) :
    Bool :=
  !answer.isEmpty && docs.all validDoctorPayload && validSuggestionLevel level

/-- Everything one chat turn persists and computes.  `answer`,
`respDoctors` and `suggestionLevel` are the values assembled into
`resp_data` (step 10); `response` is the outcome of
`resp_serializer.is_valid(raise_exception=True)`: the validated payload, or
`none` when validation raises a `ValidationError` and the turn ends in an
error response instead (persistence in steps 8–9 has already happened by
then). -/
structure TurnOut where
  answer : PyStr
  persisted : PersistedLog
  respDoctors : List DocOut
  suggestionLevel : PyStr
  response : Option ChatResponse
deriving Repr

/-- The database state a turn reads. -/
structure ChatState where
  articles : List Article
  doctors : List Doctor
  logs : List LogEntry

/-- `AIChatView.post` for one message: intent extraction (step 3), knowledge
retrieval (step 4, `limit=3`), rule-based doctor candidates (step 5,
`limit=3`, no `user_id` so the smart branch is skipped), deduplication
against recent logs, answer generation (step 6), reconciliation (step 7),
persistence (steps 8–9), and the response payload with its serializer
validation (step 10): when `resp_serializer.is_valid(raise_exception=True)`
fails — e.g. a blank answer — the turn raises a `ValidationError` after
persisting, yielding no chat response (`response = none`). -/
noncomputable def fullChatTurn (parse : PyStr → Option IntentDict)
    (intentR answerR : LLMResult) (encoded : Option (List ℝ))
    (st : ChatState) (message : PyStr) : TurnOut :=
  let intent := resolveIntent parse intentR
  let knowledge := retrieveKnowledgeSnippets true encoded st.articles message 3
  let candsAll := retrieveDoctorsByIntent true none 0 none intent message
    knowledge 3 st.doctors
  let recommended := dedupCandidates st.logs intent.disease intent.dept candsAll
  let answer := answerText answerR
  let ai := reconcileAnswer recommended answer
  { answer := answer,
    persisted := { raw_question := message, structured_intent := intent,
                   recommended_doctors := ai },
    respDoctors := ai,
    suggestionLevel := intent.priority.getD (pys "info"),
    response :=
      if validChatResponse answer ai (intent.priority.getD (pys "info")) then
        some { answer := answer, recommended_doctors := ai,
               suggestion_level := intent.priority.getD (pys "info") }
      else none }

/-! ## Collaborative filtering (`calculate_user_similarity`) -/

/-- The per-action weight of a behavior
(`{'make_appointment': 3.0, 'rate_doctor': 2.0, 'click_doctor': 1.0,
'view_doctor_detail': 1.5}.get(action, 1.0)`). -/
def actionWeight (a : PyStr) : ℚ :=
  if a = pys "make_appointment" then 3
  else if a = pys "rate_doctor" then 2
  else if a = pys "click_doctor" then 1
  else if a = pys "view_doctor_detail" then 3/2
  else 1

/-- `m[k] = m.get(k, 0) + v` on an insertion-ordered dict. -/
def upsertAdd (m : List (Nat × ℚ)) (k : Nat) (v : ℚ) : List (Nat × ℚ) :=
  match m with
  | [] => [(k, v)]
  | (k₀, v₀) :: t => if k₀ = k then (k₀, v₀ + v) :: t else (k₀, v₀) :: upsertAdd t k v

/-- The doctor → weighted-score dict of one user, accumulated over their
doctor-linked behaviors (`score * weight` summed per doctor). -/
def userDoctorScores (behaviors : List Behavior) (uid : Nat) :
    List (Nat × ℚ) :=
  (behaviors.filter fun b => b.userId == uid && b.doctorId.isSome).foldl
    (fun m b =>
      match b.doctorId with
      | some did => upsertAdd m did (b.score * actionWeight b.action)
      | none => m) []

/-- Dict lookup with default 0. -/
def lookupScore (m : List (Nat × ℚ)) (k : Nat) : ℚ :=
  ((m.find? (·.1 == k)).map (·.2)).getD 0

/-- `common_doctors = set(user1_doctors) & set(user2_doctors)`, kept as the
entries of user 1's dict whose doctor also appears in user 2's dict. -/
def commonEntries (behaviors : List Behavior) (u₁ u₂ : Nat) :
    List (Nat × ℚ) :=
  (userDoctorScores behaviors u₁).filter fun p =>
    (userDoctorScores behaviors u₂).any (·.1 == p.1)

/-- `dot_product = sum(user1_doctors[d] * user2_doctors[d] for d in
common_doctors)`. -/
def simDot (behaviors : List Behavior) (u₁ u₂ : Nat) : ℚ :=
  ((commonEntries behaviors u₁ u₂).map fun p =>
    p.2 * lookupScore (userDoctorScores behaviors u₂) p.1).sum

/-- The sum of squares under one user's norm. -/
def normSq (behaviors : List Behavior) (u : Nat) : ℚ :=
  ((userDoctorScores behaviors u).map fun p => p.2 ^ 2).sum

/-- `norm = math.sqrt(sum(v ** 2 for v in doctors.values()))`. -/
noncomputable def userNorm (behaviors : List Behavior) (u : Nat) : ℝ :=
  Real.sqrt ((normSq behaviors u : ℚ) : ℝ)

/-- `calculate_user_similarity(user1_id, user2_id)`: 0 without commonly
interacted doctors or when either weighted vector has zero norm, otherwise
the dot product over the common doctors divided by the product of the full
norms. -/
noncomputable def calcUserSimilarity (behaviors : List Behavior)
    (u₁ u₂ : Nat) : ℝ :=
  if (commonEntries behaviors u₁ u₂).isEmpty then 0
  else if userNorm behaviors u₁ = 0 ∨ userNorm behaviors u₂ = 0 then 0
  else (simDot behaviors u₁ u₂ : ℝ) /
    (userNorm behaviors u₁ * userNorm behaviors u₂)

/-! ## Content-based recommendation (`content_based_recommend`) -/

/-- `UserProfile.objects.get_or_create(user=user)` as used by
`get_user_profile`: returns the profile and the (possibly grown) table. -/
def getUserProfile (profiles : List ProfileRec) (uid : Nat) :
    ProfileRec × List ProfileRec :=
  match profiles.find? (·.userId == uid) with
  | some p => (p, profiles)
  | none => (defaultProfile uid, profiles ++ [defaultProfile uid])

/-- Set-dedup of a list of ids, keeping first occurrences. -/
def dedupNat (l : List Nat) : List Nat := dedupBy id l

/-- `m[k] = m.get(k, 0) + v` on a string-keyed dict. -/
def upsertAddS (m : List (PyStr × ℚ)) (k : PyStr) (v : ℚ) :
    List (PyStr × ℚ) :=
  match m with
  | [] => [(k, v)]
  | (k₀, v₀) :: t => if k₀ = k then (k₀, v₀ + v) :: t else (k₀, v₀) :: upsertAddS t k v

/-- The specialty-frequency dict over the doctors a user interacted with. -/
def specialtyCountsOf (uds : List Doctor) : List (PyStr × ℚ) :=
  uds.foldl (fun m d => if d.specialty ≠ [] then upsertAddS m d.specialty 1 else m) []

/-- String-dict lookup with default 0. -/
def lookupCount (m : List (PyStr × ℚ)) (k : PyStr) : ℚ :=
  ((m.find? (·.1 == k)).map (·.2)).getD 0

/-- `max(counts.values()) if counts else 1`. -/
def maxCount (m : List (PyStr × ℚ)) : ℚ :=
  match m.map (·.2) with
  | [] => 1
  | v :: vs => vs.foldl max v

/-- Django `Avg` with the source's `or 0` guard. -/
def avgOf (l : List ℚ) (dflt : ℚ) : ℚ :=
  if l.isEmpty then dflt else l.sum / l.length

/-- The content-based score of one not-yet-interacted doctor:
`0.5 · normalized specialty match + 0.3 · score similarity +
0.2 · reviews similarity`. -/
def cbScore (counts : List (PyStr × ℚ)) (avgScore avgReviews : ℚ)
    (d : Doctor) : ℚ :=
  (if d.specialty ≠ [] ∧ ¬counts.isEmpty then
    (if 0 < lookupCount counts d.specialty then
      (lookupCount counts d.specialty / maxCount counts) * (1/2) else 0)
   else 0)
  + (1 - |d.score - avgScore| / 5) * (3/10)
  + (1 - min (|(d.reviews : ℚ) - avgReviews| / 1000) 1) * (1/5)

/-- `content_based_recommend(user_id, limit)`.  `users` is the set of
existing user ids (`User.DoesNotExist` → empty result); the second component
of the result is the `UserProfile` table after the call (`get_or_create` can
insert a row). -/
def contentBasedRecommend (users : List Nat) (profiles : List ProfileRec)
    (behaviors : List Behavior) (doctors : List Doctor) (uid : Nat)
    (limit : Nat) : List (Doctor × ℚ) × List ProfileRec :=
  if !users.contains uid then ([], profiles)
  else
    let pr := getUserProfile profiles uid
    let userBs := behaviors.filter fun b => b.userId == uid && b.doctorId.isSome
    let interacted := dedupNat (userBs.filterMap (·.doctorId))
    let stats :=
      if ¬interacted.isEmpty then
        let uds := doctors.filter fun d => interacted.contains d.id
        (specialtyCountsOf uds, avgOf (uds.map (·.score)) 0,
         avgOf (uds.map fun d => (d.reviews : ℚ)) 0)
      else (pr.1.specialty_preference, (4 : ℚ), (100 : ℚ))
    let cands := doctors.filter fun d => !interacted.contains d.id
    let recs := cands.filterMap fun d =>
      let s := cbScore stats.1 stats.2.1 stats.2.2 d
      if 0 < s then some (d, s) else none
    ((insSortBy (fun p q : Doctor × ℚ => decide (q.2 ≤ p.2)) recs).take limit,
     pr.2)

/-! ## Generic facts about `dedupBy` -/

theorem dedupBy_foldl_decompose (key : α → Nat) (l : List α) :
    ∀ acc : List α,
      ∃ r, l.foldl (fun acc a =>
          if acc.any (fun b => key b == key a) then acc else acc ++ [a]) acc
        = acc ++ r ∧ List.Sublist r l := by
  induction l with
  | nil => exact fun acc => ⟨[], by simp⟩
  | cons a t ih =>
    intro acc
    simp only [List.foldl_cons]
    by_cases hc : acc.any (fun b => key b == key a) = true
    · rcases ih acc with ⟨r, hr, hs⟩
      exact ⟨r, by simpa [hc] using hr, hs.trans (List.sublist_cons_self a t)⟩
    · rcases ih (acc ++ [a]) with ⟨r, hr, hs⟩
      refine ⟨a :: r, ?_, hs.cons₂ a⟩
      simpa [hc] using hr

theorem dedupBy_sublist (key : α → Nat) (l : List α) :
    List.Sublist (dedupBy key l) l := by
  rcases dedupBy_foldl_decompose key l [] with ⟨r, hr, hs⟩
  unfold dedupBy
  rw [hr]
  simpa using hs

theorem mem_of_mem_dedupBy {key : α → Nat} {l : List α} {a : α}
    (h : a ∈ dedupBy key l) : a ∈ l :=
  (dedupBy_sublist key l).mem h

theorem dedupBy_eq_nil_iff (key : α → Nat) (l : List α) :
    dedupBy key l = [] ↔ l = [] := by
  constructor
  · intro h
    cases l with
    | nil => rfl
    | cons a t =>
      exfalso
      rcases dedupBy_foldl_decompose key t [a] with ⟨r, hr, _⟩
      have hstep : dedupBy key (a :: t) = a :: r := by
        unfold dedupBy
        rw [List.foldl_cons]
        have hfalse : (([] : List α).any fun b => key b == key a) = false := rfl
        rw [hfalse]
        simpa using hr
      rw [hstep] at h
      simp at h
  · rintro rfl; rfl

theorem dedupBy_go_eq_self (key : α → Nat) :
    ∀ (l acc : List α), ((acc ++ l).map key).Nodup →
      l.foldl (fun acc a =>
        if acc.any (fun b => key b == key a) then acc else acc ++ [a]) acc
      = acc ++ l := by
  intro l
  induction l with
  | nil => intro acc _; simp
  | cons a t ih =>
    intro acc hacc
    have hany : (acc.any fun b => key b == key a) = false := by
      rw [List.any_eq_false]
      intro b hb
      simp only [beq_iff_eq]
      intro hkey
      have h₂ : (acc.map key).Disjoint (key a :: t.map key) := by
        apply List.disjoint_of_nodup_append
        simpa using hacc
      exact h₂ (hkey ▸ List.mem_map_of_mem key hb) (List.mem_cons_self _ _)
    rw [List.foldl_cons, hany]
    simp only [Bool.false_eq_true, if_false]
    have := ih (acc ++ [a]) (by simpa using hacc)
    simpa using this

theorem dedupBy_eq_self {key : α → Nat} {l : List α}
    (h : (l.map key).Nodup) : dedupBy key l = l := by
  unfold dedupBy
  simpa using dedupBy_go_eq_self key l [] (by simpa using h)

/-! ## C10: uniformity of the `is_exact_match` flag -/

/-- The `has_exact_match` flag as described: some filter predicate was built
and it matched at least one doctor. -/
def hasExactFlag (intent : IntentDict) (question : PyStr) (kn : List Article)
    (doctors : List Doctor) : Bool :=
  let preds := buildPreds (intent.dept.getD []) (intent.disease.getD []) kn question
  !preds.isEmpty && doctors.any (matchesPreds preds)

theorem ruleBasedCore_snd (intent : IntentDict) (question : PyStr)
    (kn : List Article) (doctors : List Doctor) :
    (ruleBasedCore intent question kn doctors).2
      = hasExactFlag intent question kn doctors := by
  unfold ruleBasedCore hasExactFlag
  by_cases hp :
      (buildPreds (intent.dept.getD []) (intent.disease.getD []) kn question).isEmpty
  · simp [hp]
  · simp only [hp, Bool.not_false, if_neg, Bool.true_and]
    by_cases hm : (dedupDoctors (doctors.filter
        (matchesPreds (buildPreds (intent.dept.getD [])
          (intent.disease.getD []) kn question)))).isEmpty
    · have hfil : doctors.filter (matchesPreds (buildPreds (intent.dept.getD [])
          (intent.disease.getD []) kn question)) = [] := by
        rw [List.isEmpty_iff] at hm
        exact (dedupBy_eq_nil_iff _ _).mp hm
      have : doctors.any (matchesPreds (buildPreds (intent.dept.getD [])
          (intent.disease.getD []) kn question)) = false := by
        rw [List.any_eq_false]
        intro d hd hmatch
        have : d ∈ doctors.filter (matchesPreds (buildPreds (intent.dept.getD [])
            (intent.disease.getD []) kn question)) :=
          List.mem_filter.mpr ⟨hd, hmatch⟩
        simp [hfil] at this
      simp [hm, this]
    · have hfil : doctors.filter (matchesPreds (buildPreds (intent.dept.getD [])
          (intent.disease.getD []) kn question)) ≠ [] := by
        intro hnil
        apply hm
        rw [List.isEmpty_iff]
        exact (dedupBy_eq_nil_iff _ _).mpr hnil
      have : doctors.any (matchesPreds (buildPreds (intent.dept.getD [])
          (intent.disease.getD []) kn question)) = true := by
        rw [List.any_eq_true]
        rcases List.exists_mem_of_ne_nil _ hfil with ⟨d, hd⟩
        rcases List.mem_filter.mp hd with ⟨hd₁, hd₂⟩
        exact ⟨d, hd₁, hd₂⟩
      simp [hm, this]

/-- C10: in the rule-based branch of `retrieve_doctors_by_intent` the
`is_exact_match` flag is uniform over one call's result: every returned
summary carries the flag "a filter predicate was built and matched at least
one doctor", so a single result never mixes `true` and `false`. -/
theorem c10_exact_match_uniform (intent : IntentDict) (question : PyStr)
    (kn : List Article) (limit : Nat) (doctors : List Doctor) :
    (∀ o ∈ basicRecommend intent question kn limit doctors,
      o.is_exact_match = hasExactFlag intent question kn doctors)
    ∧ ∀ o₁ ∈ basicRecommend intent question kn limit doctors,
        ∀ o₂ ∈ basicRecommend intent question kn limit doctors,
          o₁.is_exact_match = o₂.is_exact_match := by
  have key : ∀ o ∈ basicRecommend intent question kn limit doctors,
      o.is_exact_match = hasExactFlag intent question kn doctors := by
    intro o ho
    unfold basicRecommend at ho
    by_cases hd : doctors.isEmpty
    · simp [hd] at ho
    · simp only [hd, Bool.false_eq_true, if_false] at ho
      rcases List.mem_map.mp ho with ⟨d, _, rfl⟩
      simpa [mkDocOut] using ruleBasedCore_snd intent question kn doctors
  exact ⟨key, fun o₁ h₁ o₂ h₂ => (key o₁ h₁).trans (key o₂ h₂).symm⟩

/-- C10 witness: a concrete call surfacing the flags. -/
theorem c10_exact_match_uniform_witness :
    ∀ o ∈ basicRecommend defaultIntent [] [] 1 [], o.is_exact_match = false := by
  intro o ho
  have h := (c10_exact_match_uniform defaultIntent [] [] 1 []).1 o ho
  simpa using h

/-! ## C3: the below-20-behaviors guard -/

theorem rankWith_nil (conds : List ((Doctor → Bool) × Nat)) (dflt : Nat) :
    rankWith conds dflt [] = [] := by
  unfold rankWith
  split <;> rfl

theorem dedupDoctors_nil : dedupDoctors [] = [] := rfl

theorem ruleBasedCore_fst_nil (intent : IntentDict) (question : PyStr)
    (kn : List Article) : (ruleBasedCore intent question kn []).1 = [] := by
  unfold ruleBasedCore
  by_cases hp :
      (buildPreds (intent.dept.getD []) (intent.disease.getD []) kn question).isEmpty
  · simp [hp, rankWith_nil]
  · simp [hp, rankWith_nil, List.filter_nil, dedupDoctors_nil]

/-- The basic branch equals the (uncapped) rule-based ranking truncated to
`limit * 2`. -/
theorem basicRecommend_eq (intent : IntentDict) (question : PyStr)
    (kn : List Article) (limit : Nat) (doctors : List Doctor) :
    basicRecommend intent question kn limit doctors
      = (ruleBasedRankingAll intent question kn doctors).take (limit * 2) := by
  unfold basicRecommend ruleBasedRankingAll
  by_cases hd : doctors.isEmpty
  · have : doctors = [] := List.isEmpty_iff.mp hd
    subst this
    simp [hd, ruleBasedCore_fst_nil]
  · simp [hd, List.map_take]

/-- Sample doctor rows used by concrete instances. -/
def docZhang : Doctor :=
  { id := 1, name := pys "张强", title := [], specialty := [],
    introduction := [], experience := [], is_online := false, score := 0,
    reviews := 0, hospital := none }

/-- Second sample doctor row. -/
def docLi : Doctor :=
  { id := 2, name := pys "李明", title := [], specialty := [],
    introduction := [], experience := [], is_online := false, score := 0,
    reviews := 0, hospital := none }

/-- C3 counterexample: with 2 doctors and `limit = 1`, a user below the
20-behavior threshold gets the rule-based ranking's top `limit * 2 = 2`
doctors, not its top `limit = 1` — the claim's "exactly the rule-based
ranking's top `limit`" fails. -/
theorem c3_counterexample :
    retrieveDoctorsByIntent true (some 1) 5 none defaultIntent [] [] 1
        [docZhang, docLi]
      ≠ (ruleBasedRankingAll defaultIntent [] [] [docZhang, docLi]).take 1 := by
  decide

/-- C3 (amended): when the user's behavior-log count is below 20, the call
performs no collaborative or content-based scoring (the hybrid outcome is
never consulted — the result is the same for every value of `hybrid`) and
returns exactly the rule-based ranking's top `limit * 2` doctors. -/
theorem c3_skip_personalization (uid bc : Nat) (h : bc < 20)
    (hybrid : Option (List SmartRec)) (intent : IntentDict) (question : PyStr)
    (kn : List Article) (limit : Nat) (doctors : List Doctor) :
    retrieveDoctorsByIntent true (some uid) bc hybrid intent question kn limit
        doctors
      = (ruleBasedRankingAll intent question kn doctors).take (limit * 2) := by
  unfold retrieveDoctorsByIntent
  simp [h, basicRecommend_eq]

/-- C3 witness: the amended claim at a concrete input. -/
theorem c3_skip_personalization_witness :
    retrieveDoctorsByIntent true (some 1) 5 none defaultIntent [] [] 1
        [docZhang, docLi]
      = (ruleBasedRankingAll defaultIntent [] [] [docZhang, docLi]).take (1 * 2) :=
  c3_skip_personalization 1 5 (by norm_num) none defaultIntent [] [] 1
    [docZhang, docLi]

/-! ## C4: total fallback to lexical retrieval on embedding failure -/

/-- C4: when the embedding provider is unavailable or raises on every encode
call (`encoded = none`), `retrieve_knowledge_snippets` returns the lexical
keyword-matching result — a (possibly empty) list of active articles — and,
being a total function, raises nothing. -/
theorem c4_embedding_failure_fallback (useVector : Bool) (table : List Article)
    (question : PyStr) (limit : Nat) :
    retrieveKnowledgeSnippets useVector none table question limit
      = lexicalRetrieve table question limit
    ∧ ∀ a ∈ retrieveKnowledgeSnippets useVector none table question limit,
        a.is_active = true := by
  have hvec : retrieveKnowledgeByVector none table limit ((3:ℝ)/10) 150 = [] := rfl
  have heq : retrieveKnowledgeSnippets useVector none table question limit
      = lexicalRetrieve table question limit := by
    unfold retrieveKnowledgeSnippets
    rw [hvec]
    simp
  refine ⟨heq, ?_⟩
  rw [heq]
  intro a ha
  unfold lexicalRetrieve at ha
  by_cases hact : (!table.any fun a => a.is_active) = true
  · simp [hact] at ha
  · simp only [hact, Bool.false_eq_true, if_false] at ha
    have h₁ : a ∈ dedupById ((table.filter (·.is_active)).filter
        (articleMatch (keywordsOf question) question)) :=
      List.mem_of_mem_take ha
    have h₂ := mem_of_mem_dedupBy h₁
    have h₃ := (List.mem_filter.mp (List.mem_filter.mp h₂).1).2
    exact h₃

/-- C4 witness: concrete instance (empty knowledge table). -/
theorem c4_embedding_failure_fallback_witness :
    retrieveKnowledgeSnippets true none [] (pys "牙疼怎么办") 3
      = lexicalRetrieve [] (pys "牙疼怎么办") 3 :=
  (c4_embedding_failure_fallback true [] (pys "牙疼怎么办") 3).1

/-! ## C2: deduplication against recent recommendation logs -/

/-- C2: every doctor id stored in the 20 most recent same-intent log rows is
removed from the candidate list, except when removal would empty a non-empty
candidate list, in which case the unfiltered candidates are returned. -/
theorem c2_dedup (logs : List LogEntry) (curDisease curDept : Option PyStr)
    (cands : List DocOut) :
    (∀ d ∈ dedupCandidates logs curDisease curDept cands, d ∈ cands)
    ∧ (¬((cands.filter fun d =>
            !(usedDoctorIds logs curDisease curDept).contains d.id).isEmpty = true
          ∧ ¬cands.isEmpty = true) →
        dedupCandidates logs curDisease curDept cands
          = cands.filter (fun d =>
              !(usedDoctorIds logs curDisease curDept).contains d.id)
        ∧ ∀ d ∈ dedupCandidates logs curDisease curDept cands,
            ∀ i ∈ usedDoctorIds logs curDisease curDept, d.id ≠ i)
    ∧ (((cands.filter fun d =>
            !(usedDoctorIds logs curDisease curDept).contains d.id).isEmpty = true
          ∧ ¬cands.isEmpty = true) →
        dedupCandidates logs curDisease curDept cands = cands) := by
  by_cases hcond : ((cands.filter fun d =>
      !(usedDoctorIds logs curDisease curDept).contains d.id).isEmpty = true
      ∧ ¬cands.isEmpty = true)
  · refine ⟨?_, fun hc => absurd hcond hc, fun _ => ?_⟩
    · intro d hd
      unfold dedupCandidates at hd
      rw [if_pos hcond] at hd
      exact hd
    · unfold dedupCandidates
      rw [if_pos hcond]
  · have hres : dedupCandidates logs curDisease curDept cands
        = cands.filter (fun d =>
            !(usedDoctorIds logs curDisease curDept).contains d.id) := by
      unfold dedupCandidates
      rw [if_neg hcond]
    refine ⟨?_, fun _ => ⟨hres, ?_⟩, fun hc => absurd hc hcond⟩
    · intro d hd
      rw [hres] at hd
      exact (List.mem_filter.mp hd).1
    · intro d hd i hi heq
      rw [hres] at hd
      have hb := (List.mem_filter.mp hd).2
      simp only [Bool.not_eq_true'] at hb
      have hc : (usedDoctorIds logs curDisease curDept).contains d.id = true :=
        List.elem_iff.mpr (heq ▸ hi)
      rw [hb] at hc
      exact Bool.false_ne_true hc

/-- C2 witness: a previously recommended doctor (id 1) is dropped for the
same intent while a fresh doctor (id 2) remains. -/
theorem c2_dedup_witness :
    dedupCandidates [⟨some defaultIntent, [some 1]⟩] (some (pys "未知")) none
        [mkDocOut false docZhang, mkDocOut false docLi]
      = [mkDocOut false docLi] := by
  have h := (c2_dedup [⟨some defaultIntent, [some 1]⟩] (some (pys "未知")) none
    [mkDocOut false docZhang, mkDocOut false docLi]).2.1 (by decide)
  exact h.1.trans (by decide)

/-! ## C1: answer reconciliation -/

theorem mem_upsert {m : List (PyStr × DocOut)} {k : PyStr} {v : DocOut} :
    ∀ p ∈ upsert m k v, p ∈ m ∨ p = (k, v) := by
  induction m with
  | nil => intro p hp; simp [upsert] at hp; exact Or.inr hp
  | cons q t ih =>
    intro p hp
    unfold upsert at hp
    by_cases hk : q.1 = k
    · rw [if_pos hk] at hp
      rcases List.mem_cons.mp hp with h | hp
      · exact Or.inr (by rw [h, hk])
      · exact Or.inl (List.mem_cons_of_mem _ hp)
    · rw [if_neg hk] at hp
      rcases List.mem_cons.mp hp with rfl | hp
      · exact Or.inl (List.mem_cons_self _ _)
      · rcases ih p hp with h | h
        · exact Or.inl (List.mem_cons_of_mem _ h)
        · exact Or.inr h

theorem buildDoctorNames_go (l : List DocOut) :
    ∀ acc : List (PyStr × DocOut),
      ∀ p ∈ l.foldl (fun m d => if d.name ≠ [] then upsert m d.name d else m) acc,
        p ∈ acc ∨ (p.2.name = p.1 ∧ p.1 ≠ [] ∧ p.2 ∈ l) := by
  induction l with
  | nil => intro acc p hp; exact Or.inl (by simpa using hp)
  | cons d t ih =>
    intro acc p hp
    rw [List.foldl_cons] at hp
    by_cases hn : d.name ≠ []
    · rw [if_pos hn] at hp
      rcases ih (upsert acc d.name d) p hp with h | h
      · rcases mem_upsert p h with h' | h'
        · exact Or.inl h'
        · subst h'
          exact Or.inr ⟨rfl, hn, List.mem_cons_self _ _⟩
      · exact Or.inr ⟨h.1, h.2.1, List.mem_cons_of_mem _ h.2.2⟩
    · rw [if_neg hn] at hp
      rcases ih acc p hp with h | h
      · exact Or.inl h
      · exact Or.inr ⟨h.1, h.2.1, List.mem_cons_of_mem _ h.2.2⟩

theorem buildDoctorNames_spec (cands : List DocOut) :
    ∀ p ∈ buildDoctorNames cands, p.2.name = p.1 ∧ p.1 ≠ [] ∧ p.2 ∈ cands := by
  intro p hp
  rcases buildDoctorNames_go cands [] p hp with h | h
  · simp at h
  · exact h

theorem namePatterns_contain (n : PyStr) :
    ∀ pat ∈ namePatterns n, hasSub pat n = true := by
  intro pat hp
  simp only [namePatterns, List.mem_cons, List.not_mem_nil, or_false] at hp
  rcases hp with rfl | rfl | rfl | rfl | rfl | rfl | rfl | rfl | rfl
  · exact (hasSub_iff _ _).mpr ⟨[], [], by simp⟩
  · exact hasSub_of_append_left
  · exact hasSub_of_append_left
  · exact hasSub_of_append_left
  · exact hasSub_of_append_left
  · exact hasSub_of_append_right
  · exact hasSub_of_append_right
  · exact hasSub_of_append_right
  · exact hasSub_of_append_right

/-- Everything `reconcileAnswer` returns came from the matched-doctors list. -/
theorem reconcile_subset_matched (cands : List DocOut) (answer : PyStr) :
    ∀ d ∈ reconcileAnswer cands answer,
      d ∈ matchedDoctors (buildDoctorNames cands) answer := by
  intro d hd
  unfold reconcileAnswer at hd
  by_cases h₁ : (¬cands.isEmpty = true ∧ ¬answer.isEmpty = true)
  · rw [if_pos h₁] at hd
    by_cases h₂ :
        (matchedDoctors (buildDoctorNames cands) answer).isEmpty = true
    · have hnil : matchedDoctors (buildDoctorNames cands) answer = [] :=
        List.isEmpty_iff.mp h₂
      rw [hnil] at hd ⊢
      split at hd
      · split at hd
        · split at hd
          · exact hd
          · exact hd
        · exact hd
      · exact hd
    · rw [if_neg h₂] at hd
      exact hd
  · rw [if_neg h₁] at hd
    simp at hd

/-- Every reconciled doctor has a non-empty name, matched one of its name
patterns in the answer, and its bare name occurs in the answer. -/
theorem reconcile_sound (cands : List DocOut) (answer : PyStr) :
    ∀ d ∈ reconcileAnswer cands answer,
      d.name ≠ []
      ∧ (∃ pat ∈ namePatterns d.name, hasSub answer pat = true)
      ∧ hasSub answer d.name = true := by
  intro d hd
  have hm := reconcile_subset_matched cands answer d hd
  unfold matchedDoctors at hm
  rcases List.mem_map.mp hm with ⟨p, hp, rfl⟩
  rcases List.mem_filter.mp hp with ⟨hpd, hpat⟩
  rcases List.any_eq_true.mp hpat with ⟨pat, hpatmem, hsub⟩
  rcases buildDoctorNames_spec cands p hpd with ⟨hname, hne, _⟩
  refine ⟨hname ▸ hne, ?_, ?_⟩
  · rw [hname]
    exact ⟨pat, hpatmem, hsub⟩
  · rw [hname]
    exact hasSub_trans hsub (namePatterns_contain p.1 pat hpatmem)

/-- When no candidate's name matches any pattern, reconciliation is empty. -/
theorem reconcile_empty_of_no_match (cands : List DocOut) (answer : PyStr)
    (h : ∀ d ∈ cands, ∀ pat ∈ namePatterns d.name, hasSub answer pat = false) :
    reconcileAnswer cands answer = [] := by
  have hmat : matchedDoctors (buildDoctorNames cands) answer = [] := by
    unfold matchedDoctors
    rw [List.filter_eq_nil_iff.mpr, List.map_nil]
    intro p hp
    rcases buildDoctorNames_spec cands p hp with ⟨hname, _, hmem⟩
    rw [Bool.not_eq_true, List.any_eq_false]
    intro pat hpat
    rw [Bool.not_eq_true]
    exact h p.2 hmem pat (hname.symm ▸ hpat)
  unfold reconcileAnswer
  by_cases h₁ : (¬cands.isEmpty = true ∧ ¬answer.isEmpty = true)
  · rw [if_pos h₁, hmat]
    simp only [List.isEmpty_nil, if_true]
    split <;> [skip; rfl]
    split <;> rfl
  · rw [if_neg h₁]

/-- C1: every doctor in the persisted log row's `recommended_doctors` (equal
to the response's list) matched one of its name patterns in the generated
answer — its name occurs in the answer text — and when no candidate matches
any pattern the reconciled list is empty (the full candidate list is never
persisted unless each candidate was actually named). -/
theorem c1_reconciliation (parse : PyStr → Option IntentDict)
    (intentR answerR : LLMResult) (encoded : Option (List ℝ)) (st : ChatState)
    (message : PyStr) :
    ((fullChatTurn parse intentR answerR encoded st
        message).persisted.recommended_doctors
      = (fullChatTurn parse intentR answerR encoded st message).respDoctors)
    ∧ (∀ d ∈ (fullChatTurn parse intentR answerR encoded st
          message).persisted.recommended_doctors,
        d.name ≠ []
        ∧ (∃ pat ∈ namePatterns d.name,
            hasSub (fullChatTurn parse intentR answerR encoded st
              message).answer pat = true)
        ∧ hasSub (fullChatTurn parse intentR answerR encoded st message).answer
            d.name = true)
    ∧ (∀ (cands : List DocOut) (answer : PyStr),
        (∀ d ∈ cands, ∀ pat ∈ namePatterns d.name,
          hasSub answer pat = false) →
        reconcileAnswer cands answer = []) := by
  refine ⟨rfl, ?_, reconcile_empty_of_no_match⟩
  exact fun d hd => reconcile_sound _ _ d hd

/-- C1 witness: with one candidate doctor named in the answer, the persisted
list contains that doctor, whose name occurs in the answer. -/
theorem c1_reconciliation_witness :
    mkDocOut false docZhang
      ∈ (fullChatTurn (fun _ => none) (.fail [])
          (.ok (pys "为您推荐张强医生")) none ⟨[], [docZhang], []⟩
          (pys "牙疼")).persisted.recommended_doctors
    ∧ hasSub (fullChatTurn (fun _ => none) (.fail [])
        (.ok (pys "为您推荐张强医生")) none ⟨[], [docZhang], []⟩
        (pys "牙疼")).answer (mkDocOut false docZhang).name = true := by
  have hmem : mkDocOut false docZhang
      ∈ (fullChatTurn (fun _ => none) (.fail [])
          (.ok (pys "为您推荐张强医生")) none ⟨[], [docZhang], []⟩
          (pys "牙疼")).persisted.recommended_doctors := by decide
  have h := (c1_reconciliation (fun _ => none) (.fail [])
    (.ok (pys "为您推荐张强医生")) none ⟨[], [docZhang], []⟩
    (pys "牙疼")).2.1 (mkDocOut false docZhang) hmem
  exact ⟨hmem, h.2.2⟩

/-! ## C5: intent-extraction failure handling -/

/-- Step 10's validation, as seen through the turn's own fields. -/
theorem fullChatTurn_response (parse : PyStr → Option IntentDict)
    (intentR answerR : LLMResult) (encoded : Option (List ℝ)) (st : ChatState)
    (message : PyStr) :
    (fullChatTurn parse intentR answerR encoded st message).response
      = if validChatResponse
            (fullChatTurn parse intentR answerR encoded st message).answer
            (fullChatTurn parse intentR answerR encoded st message).respDoctors
            (fullChatTurn parse intentR answerR encoded st
              message).suggestionLevel then
          some { answer :=
                   (fullChatTurn parse intentR answerR encoded st
                     message).answer,
                 recommended_doctors :=
                   (fullChatTurn parse intentR answerR encoded st
                     message).respDoctors,
                 suggestion_level :=
                   (fullChatTurn parse intentR answerR encoded st
                     message).suggestionLevel }
        else none := rfl

theorem apologyAnswer_isEmpty (e : PyStr) :
    (apologyAnswer e).isEmpty = false := by
  rw [Bool.eq_false_iff]
  intro hcon
  rw [List.isEmpty_iff] at hcon
  unfold apologyAnswer at hcon
  exact absurd (List.append_eq_nil.mp (List.append_eq_nil.mp hcon).1).1
    (by decide)

/-- C5 counterexample: the intent call fails (so the default intent and
`"info"` level are used), yet the answer LLM call succeeds returning the
empty string — `answer` is a `CharField` with `allow_blank=False`, so
`resp_serializer.is_valid(raise_exception=True)` raises and the turn ends in
a `ValidationError` after persisting: no chat response is returned at all,
refuting the claim's "the chat turn still returns a non-empty answer_text
with priority_level info". -/
theorem c5_counterexample :
    (fullChatTurn (fun _ => none) (.fail []) (.ok []) none ⟨[], [], []⟩
        (pys "牙疼")).response = none
    ∧ (fullChatTurn (fun _ => none) (.fail []) (.ok []) none ⟨[], [], []⟩
        (pys "牙疼")).persisted.structured_intent = defaultIntent
    ∧ (fullChatTurn (fun _ => none) (.fail []) (.ok []) none ⟨[], [], []⟩
        (pys "牙疼")).answer = [] :=
  ⟨rfl, rfl, rfl⟩

/-- C5 (amended): on any intent-extraction outcome that is a call failure or
a JSON-parse failure, the resulting intent is the default
`{"disease_category": "未知", "recommended_department": null,
"priority_level": "info"}`, the turn persists its log (no intent-extraction
failure propagates), and the assembled payload's priority level is `"info"`.
When the answer-generation call fails, the answer text is the non-empty
apology fallback, and the validated response carries it (provided the
reconciled doctor payloads pass the nested serializer).  When the
answer-generation call succeeds, the answer text is exactly the LLM's text:
if it is blank, `AIChatResponseSerializer` (whose `answer` has
`allow_blank=False`) rejects the payload and the turn ends in a
`ValidationError` with no chat response; if it is non-blank (and the doctor
payloads validate), the response carries it. -/
theorem c5_intent_failure_defaults (parse : PyStr → Option IntentDict)
    (intentR answerR : LLMResult) (encoded : Option (List ℝ)) (st : ChatState)
    (message : PyStr)
    (h : (∃ e, intentR = .fail e) ∨ (∃ raw, intentR = .ok raw ∧ parse raw = none)) :
    (fullChatTurn parse intentR answerR encoded st
        message).persisted.structured_intent = defaultIntent
    ∧ (fullChatTurn parse intentR answerR encoded st message).suggestionLevel
        = pys "info"
    ∧ (∀ e, answerR = .fail e →
        (fullChatTurn parse intentR answerR encoded st message).answer
            = apologyAnswer e
        ∧ (fullChatTurn parse intentR answerR encoded st message).answer ≠ []
        ∧ ((fullChatTurn parse intentR answerR encoded st
              message).respDoctors.all validDoctorPayload = true →
            (fullChatTurn parse intentR answerR encoded st message).response
              = some { answer := apologyAnswer e,
                       recommended_doctors :=
                         (fullChatTurn parse intentR answerR encoded st
                           message).respDoctors,
                       suggestion_level := pys "info" }))
    ∧ (∀ t, answerR = .ok t →
        (fullChatTurn parse intentR answerR encoded st message).answer = t
        ∧ (t = [] →
            (fullChatTurn parse intentR answerR encoded st message).response
              = none)
        ∧ (t ≠ [] →
            (fullChatTurn parse intentR answerR encoded st
              message).respDoctors.all validDoctorPayload = true →
            (fullChatTurn parse intentR answerR encoded st message).response
              = some { answer := t,
                       recommended_doctors :=
                         (fullChatTurn parse intentR answerR encoded st
                           message).respDoctors,
                       suggestion_level := pys "info" })) := by
  have hint : resolveIntent parse intentR = defaultIntent := by
    rcases h with ⟨e, rfl⟩ | ⟨raw, rfl, hp⟩
    · rfl
    · simp [resolveIntent, hp]
  have hlvl : (resolveIntent parse intentR).priority.getD (pys "info")
      = pys "info" := by
    rw [hint]
    rfl
  refine ⟨?_, ?_, ?_, ?_⟩
  · show resolveIntent parse intentR = defaultIntent
    exact hint
  · show (resolveIntent parse intentR).priority.getD (pys "info") = pys "info"
    exact hlvl
  · rintro e rfl
    have hne : apologyAnswer e ≠ [] := by
      intro hnil
      have := apologyAnswer_isEmpty e
      rw [hnil] at this
      simp at this
    refine ⟨rfl, hne, ?_⟩
    intro hall
    rw [fullChatTurn_response]
    have hans : (fullChatTurn parse intentR (.fail e) encoded st
        message).answer = apologyAnswer e := rfl
    have hlev : (fullChatTurn parse intentR (.fail e) encoded st
        message).suggestionLevel = pys "info" := hlvl
    rw [hans, hlev]
    have hcond : validChatResponse (apologyAnswer e)
        ((fullChatTurn parse intentR (.fail e) encoded st
          message).respDoctors) (pys "info") = true := by
      unfold validChatResponse
      rw [apologyAnswer_isEmpty, hall]
      rfl
    rw [if_pos hcond]
  · rintro t rfl
    refine ⟨rfl, ?_, ?_⟩
    · rintro rfl
      rfl
    · intro hne hall
      rw [fullChatTurn_response]
      have hans : (fullChatTurn parse intentR (.ok t) encoded st
          message).answer = t := rfl
      have hlev : (fullChatTurn parse intentR (.ok t) encoded st
          message).suggestionLevel = pys "info" := hlvl
      rw [hans, hlev]
      have hcond : validChatResponse t
          ((fullChatTurn parse intentR (.ok t) encoded st
            message).respDoctors) (pys "info") = true := by
        unfold validChatResponse
        have hemp : t.isEmpty = false := by
          rw [Bool.eq_false_iff]
          intro hc
          exact hne (List.isEmpty_iff.mp hc)
        rw [hemp, hall]
        rfl
      rw [if_pos hcond]

/-- C5 witness: intent call fails with a timeout and the answer call fails
too — the default intent, the `"info"` level, the non-empty apology answer
and the validated response all hold. -/
theorem c5_intent_failure_defaults_witness :
    (fullChatTurn (fun _ => none) (.fail []) (.fail (pys "timeout")) none
        ⟨[], [], []⟩ (pys "牙疼")).persisted.structured_intent = defaultIntent
    ∧ (fullChatTurn (fun _ => none) (.fail []) (.fail (pys "timeout")) none
        ⟨[], [], []⟩ (pys "牙疼")).suggestionLevel = pys "info"
    ∧ (fullChatTurn (fun _ => none) (.fail []) (.fail (pys "timeout")) none
        ⟨[], [], []⟩ (pys "牙疼")).answer = apologyAnswer (pys "timeout")
    ∧ (fullChatTurn (fun _ => none) (.fail []) (.fail (pys "timeout")) none
        ⟨[], [], []⟩ (pys "牙疼")).answer ≠ []
    ∧ (fullChatTurn (fun _ => none) (.fail []) (.fail (pys "timeout")) none
        ⟨[], [], []⟩ (pys "牙疼")).response
      = some { answer := apologyAnswer (pys "timeout"),
               recommended_doctors := [],
               suggestion_level := pys "info" } := by
  have h := c5_intent_failure_defaults (fun _ => none) (.fail [])
    (.fail (pys "timeout")) none ⟨[], [], []⟩ (pys "牙疼") (Or.inl ⟨[], rfl⟩)
  have h3 := h.2.2.1 (pys "timeout") rfl
  refine ⟨h.1, h.2.1, h3.1, h3.2.1, ?_⟩
  exact (h3.2.2 (by decide)).trans (by decide)

/-! ## C6: missing `UserProfile` in `content_based_recommend` -/

/-- Third sample doctor row (positive content-based score under default
affinity: score 4, reviews 100). -/
def docWang : Doctor :=
  { id := 3, name := pys "王芳", title := [], specialty := pys "正畸",
    introduction := [], experience := [], is_online := true, score := 4,
    reviews := 100, hospital := none }

/-- C6 counterexample: for an existing user with no `UserProfile` row,
`content_based_recommend` neither returns the empty list nor leaves the
profile table unchanged — `get_user_profile` uses `get_or_create`, so the
`UserProfile.DoesNotExist` branch is unreachable: a default profile is
created and scoring proceeds. -/
theorem c6_counterexample :
    ¬((contentBasedRecommend [7] [] [] [docWang] 7 10).1 = []
      ∧ (contentBasedRecommend [7] [] [] [docWang] 7 10).2
          = ([] : List ProfileRec)) := by
  intro h
  have h2 := h.2
  rw [show (contentBasedRecommend [7] [] [] [docWang] 7 10).2
      = [defaultProfile 7] from rfl] at h2
  simp at h2

/-- C6 (amended): for every existing user with no `UserProfile` record,
`content_based_recommend` creates the default profile as a side effect
(the table grows by exactly that row) and computes its result exactly as if
that default profile had already existed — the result is not forced empty. -/
theorem c6_profile_created (users : List Nat) (profiles : List ProfileRec)
    (behaviors : List Behavior) (doctors : List Doctor) (uid limit : Nat)
    (hmem : uid ∈ users) (hnone : profiles.find? (·.userId == uid) = none) :
    (contentBasedRecommend users profiles behaviors doctors uid limit).2
      = profiles ++ [defaultProfile uid]
    ∧ (contentBasedRecommend users profiles behaviors doctors uid limit).1
      = (contentBasedRecommend users (profiles ++ [defaultProfile uid])
          behaviors doctors uid limit).1 := by
  have hc : users.contains uid = true := List.elem_iff.mpr hmem
  have hgup : getUserProfile profiles uid
      = (defaultProfile uid, profiles ++ [defaultProfile uid]) := by
    unfold getUserProfile
    rw [hnone]
  have hgup2 : getUserProfile (profiles ++ [defaultProfile uid]) uid
      = (defaultProfile uid, profiles ++ [defaultProfile uid]) := by
    unfold getUserProfile
    rw [List.find?_append, hnone]
    simp [defaultProfile]
  have hnot : (!users.contains uid) = false := by rw [hc]; rfl
  unfold contentBasedRecommend
  rw [hnot]
  simp only [Bool.false_eq_true, if_false]
  rw [hgup, hgup2]
  exact ⟨rfl, rfl⟩

/-- C6 witness: the amended claim at a concrete state. -/
theorem c6_profile_created_witness :
    (contentBasedRecommend [7] [] [] [docWang] 7 10).2
      = [] ++ [defaultProfile 7]
    ∧ (contentBasedRecommend [7] [] [] [docWang] 7 10).1
      = (contentBasedRecommend [7] ([] ++ [defaultProfile 7]) [] [docWang]
          7 10).1 :=
  c6_profile_created [7] [] [] [docWang] 7 10 (by decide) (by decide)

/-! ## C8: the lexical fallback -/

/-- C8: for a non-empty question over a well-formed table (unique ids, stored
in ascending-id order), the lexical fallback returns exactly the first
`limit` active articles matching the keyword query — an active article
matches iff some extracted keyword (or the full question) is a
case-insensitive substring of its `question_pattern`, `title` or `content` —
and the result is in ascending database-id order and all active. -/
theorem c8_lexical_fallback (table : List Article) (question : PyStr)
    (limit : Nat) (hq : question ≠ [])
    (hids : (table.map (·.id)).Nodup)
    (hsorted : table.Pairwise (fun a b => a.id < b.id)) :
    lexicalRetrieve table question limit
      = ((table.filter (·.is_active)).filter
          (articleMatch (keywordsOf question) question)).take limit
    ∧ (∀ a : Article, articleMatch (keywordsOf question) question a = true ↔
        ((∃ k ∈ keywordsOf question,
            ciHasOpt a.question_pattern k = true ∨ ciHas a.title k = true
            ∨ ciHas a.content k = true)
         ∨ (ciHasOpt a.question_pattern question = true
            ∨ ciHas a.title question = true
            ∨ ciHas a.content question = true)))
    ∧ (lexicalRetrieve table question limit).Pairwise (fun a b => a.id < b.id)
    ∧ ∀ a ∈ lexicalRetrieve table question limit, a.is_active = true := by
  have hsub : List.Sublist ((table.filter (·.is_active)).filter
      (articleMatch (keywordsOf question) question)) table :=
    (List.filter_sublist _).trans (List.filter_sublist _)
  have heq : lexicalRetrieve table question limit
      = ((table.filter (·.is_active)).filter
          (articleMatch (keywordsOf question) question)).take limit := by
    unfold lexicalRetrieve
    by_cases hact : (!table.any fun a => a.is_active) = true
    · rw [if_pos hact]
      have : table.filter (·.is_active) = [] := by
        rw [List.filter_eq_nil_iff]
        intro a ha hia
        rw [Bool.not_eq_true', List.any_eq_false] at hact
        exact absurd hia (hact a ha)
      rw [this, List.filter_nil, List.take_nil]
    · rw [if_neg hact]
      unfold dedupById
      rw [dedupBy_eq_self ((hsub.map (·.id)).nodup hids)]
  refine ⟨heq, ?_, ?_, ?_⟩
  · intro a
    simp [articleMatch, List.any_eq_true, or_assoc]
  · rw [heq]
    exact hsorted.sublist ((List.take_sublist _ _).trans hsub)
  · rw [heq]
    intro a ha
    have h₁ := List.mem_of_mem_take ha
    exact (List.mem_filter.mp (List.mem_filter.mp h₁).1).2

/-- Sample knowledge article. -/
def artCavity : Article :=
  { id := 1, title := pys "蛀牙怎么办", question_pattern := some (pys "蛀牙"),
    content := pys "蛀牙需要及时补牙。", tags := some (pys "龋齿,补牙"),
    embedding := none, is_active := true, updatedAt := 0 }

/-- C8 witness: a concrete table and question. -/
theorem c8_lexical_fallback_witness :
    lexicalRetrieve [artCavity] (pys "我蛀牙了") 3
      = (([artCavity].filter (·.is_active)).filter
          (articleMatch (keywordsOf (pys "我蛀牙了")) (pys "我蛀牙了"))).take 3
    ∧ ∀ a ∈ lexicalRetrieve [artCavity] (pys "我蛀牙了") 3,
        a.is_active = true := by
  have h := c8_lexical_fallback [artCavity] (pys "我蛀牙了") 3 (by decide)
    (by decide) (by decide)
  exact ⟨h.1, h.2.2.2⟩

/-! ## C7: batch cosine similarity -/

theorem dotR_comm (v w : List ℝ) : dotR v w = dotR w v := by
  unfold dotR
  induction v generalizing w with
  | nil => cases w <;> simp [List.zipWith]
  | cons a v ih =>
    cases w with
    | nil => simp [List.zipWith]
    | cons b w => simp [List.zipWith, ih, mul_comm]

theorem sumSq_nonneg (v : List ℝ) : 0 ≤ sumSq v := by
  unfold sumSq
  induction v with
  | nil => simp
  | cons a v ih =>
    rw [List.map_cons, List.sum_cons]
    exact add_nonneg (sq_nonneg a) ih

theorem sumSq_cons_eq_zero {a : ℝ} {v : List ℝ} (h : sumSq (a :: v) = 0) :
    a = 0 ∧ sumSq v = 0 := by
  have hv := sumSq_nonneg v
  have ha := sq_nonneg a
  have hsplit : a ^ 2 + sumSq v = 0 := by
    rw [← h]
    rfl
  constructor
  · have := (add_eq_zero_iff_of_nonneg ha hv).mp hsplit
    exact pow_eq_zero_iff (n := 2) (by norm_num) |>.mp this.1
  · exact ((add_eq_zero_iff_of_nonneg ha hv).mp hsplit).2

theorem dotR_eq_zero_left (v w : List ℝ) (h : sumSq v = 0) : dotR v w = 0 := by
  induction v generalizing w with
  | nil => cases w <;> simp [dotR, List.zipWith]
  | cons a v ih =>
    cases w with
    | nil => simp [dotR, List.zipWith]
    | cons b w =>
      rcases sumSq_cons_eq_zero h with ⟨ha, hv⟩
      show a * b + dotR v w = 0
      rw [ha, ih w hv, zero_mul, add_zero]

theorem normR_eq_zero_iff (v : List ℝ) : normR v = 0 ↔ sumSq v = 0 := by
  unfold normR
  exact Real.sqrt_eq_zero (sumSq_nonneg v)

/-- The batch formula (with `np.where(norms == 0, 1, norms)`) computes the
same value as the per-article `cosine_similarity`. -/
theorem batchSim_eq_cosSim (q e : List ℝ) : batchSim q e = cosSim q e := by
  unfold batchSim cosSim
  by_cases h : normR e * normR q = 0
  · rw [if_pos h]
    have h' : normR q = 0 ∨ normR e = 0 := (mul_eq_zero.mp h).symm
    rw [if_pos h']
    have hdot : dotR e q = 0 := by
      rcases h' with h' | h'
      · rw [dotR_comm]
        exact dotR_eq_zero_left q e ((normR_eq_zero_iff q).mp h')
      · exact dotR_eq_zero_left e q ((normR_eq_zero_iff e).mp h')
    rw [hdot, zero_div]
  · rw [if_neg h]
    have h' : ¬(normR q = 0 ∨ normR e = 0) := by
      rw [mul_eq_zero] at h
      tauto
    rw [if_neg h', dotR_comm e q, mul_comm (normR e) (normR q)]

theorem sortPairsDesc_perm (l : List (Article × ℝ)) :
    List.Perm (sortPairsDesc l) l :=
  insSortBy_perm _ l

theorem sortPairsDesc_sorted (l : List (Article × ℝ)) :
    (sortPairsDesc l).Pairwise (fun p r => r.2 ≤ p.2) := by
  have h := insSortBy_pairwise (fun p r : Article × ℝ => decide (r.2 ≤ p.2))
    (fun a b => by
      rcases le_total b.2 a.2 with h | h
      · exact Or.inl (decide_eq_true h)
      · exact Or.inr (decide_eq_true h))
    (fun a b c hab hbc =>
      decide_eq_true (le_trans (of_decide_eq_true hbc) (of_decide_eq_true hab)))
    l
  exact h.imp fun hab => of_decide_eq_true hab

theorem insertBy_filter_eq (x : Article × ℝ) (s : List (Article × ℝ)) (k : ℝ)
    (hx : x.2 = k) :
    (insertBy (fun p r => decide (r.2 ≤ p.2)) x s).filter
        (fun p => decide (p.2 = k))
      = x :: s.filter (fun p => decide (p.2 = k)) := by
  induction s with
  | nil => simp [insertBy, hx]
  | cons y ys ih =>
    unfold insertBy
    by_cases hle : decide (y.2 ≤ x.2) = true
    · rw [if_pos hle]
      simp [List.filter_cons, hx]
    · rw [if_neg hle]
      have hlt : x.2 < y.2 := lt_of_not_le fun hc => hle (decide_eq_true hc)
      have hyk : y.2 ≠ k := hx ▸ (ne_of_gt hlt)
      simp [List.filter_cons, hyk, ih]

theorem insertBy_filter_ne (x : Article × ℝ) (s : List (Article × ℝ)) (k : ℝ)
    (hx : x.2 ≠ k) :
    (insertBy (fun p r => decide (r.2 ≤ p.2)) x s).filter
        (fun p => decide (p.2 = k))
      = s.filter (fun p => decide (p.2 = k)) := by
  induction s with
  | nil => simp [insertBy, hx]
  | cons y ys ih =>
    unfold insertBy
    by_cases hle : decide (y.2 ≤ x.2) = true
    · rw [if_pos hle]
      simp [List.filter_cons, hx]
    · rw [if_neg hle]
      simp [List.filter_cons, ih]

/-- Python's stable sort: articles with equal similarity keep their original
(insertion) order. -/
theorem sortPairsDesc_stable (l : List (Article × ℝ)) (k : ℝ) :
    (sortPairsDesc l).filter (fun p => decide (p.2 = k))
      = l.filter (fun p => decide (p.2 = k)) := by
  induction l with
  | nil => rfl
  | cons x xs ih =>
    unfold sortPairsDesc at ih ⊢
    show (insertBy _ x (insSortBy _ xs)).filter _ = _
    by_cases hx : x.2 = k
    · rw [insertBy_filter_eq x _ k hx, ih, List.filter_cons]
      simp [hx]
    · rw [insertBy_filter_ne x _ k hx, ih, List.filter_cons]
      simp [hx]

/-- C7: the batch similarity computation of `retrieve_knowledge_by_vector`
equals the per-article computation, and returns exactly the articles whose
cosine similarity is ≥ the threshold (0.3 at the call site), sorted by
descending similarity with ties kept in insertion order, truncated to
`limit`. -/
theorem c7_vector_similarity (q : List ℝ) (valid : List Article)
    (limit maxA : Nat) (h : valid.length ≤ maxA) :
    batchRank q valid (3/10) limit = perArticleRank q valid (3/10) limit maxA
    ∧ batchRank q valid (3/10) limit
        = ((sortPairsDesc ((valid.map fun a => (a, cosSim q (embOf a))).filter
            fun p => decide ((3/10 : ℝ) ≤ p.2))).map Prod.fst).take limit
    ∧ List.Perm
        (sortPairsDesc ((valid.map fun a => (a, cosSim q (embOf a))).filter
          fun p => decide ((3/10 : ℝ) ≤ p.2)))
        ((valid.map fun a => (a, cosSim q (embOf a))).filter
          fun p => decide ((3/10 : ℝ) ≤ p.2))
    ∧ (sortPairsDesc ((valid.map fun a => (a, cosSim q (embOf a))).filter
          fun p => decide ((3/10 : ℝ) ≤ p.2))).Pairwise (fun p r => r.2 ≤ p.2)
    ∧ (∀ p ∈ (valid.map fun a => (a, cosSim q (embOf a))).filter
          (fun p => decide ((3/10 : ℝ) ≤ p.2)), (3/10 : ℝ) ≤ p.2)
    ∧ ∀ k : ℝ,
        (sortPairsDesc ((valid.map fun a => (a, cosSim q (embOf a))).filter
            fun p => decide ((3/10 : ℝ) ≤ p.2))).filter
          (fun p => decide (p.2 = k))
        = ((valid.map fun a => (a, cosSim q (embOf a))).filter
            fun p => decide ((3/10 : ℝ) ≤ p.2)).filter
          (fun p => decide (p.2 = k)) := by
  have hmap : (valid.map fun a => (a, batchSim q (embOf a)))
      = valid.map fun a => (a, cosSim q (embOf a)) :=
    List.map_congr_left fun a _ => by rw [batchSim_eq_cosSim]
  refine ⟨?_, ?_, sortPairsDesc_perm _, sortPairsDesc_sorted _, ?_,
    sortPairsDesc_stable _⟩
  · unfold batchRank perArticleRank
    rw [List.take_of_length_le h, hmap]
  · unfold batchRank
    rw [hmap]
  · intro p hp
    exact of_decide_eq_true (List.mem_filter.mp hp).2

/-- Sample article with a stored embedding. -/
noncomputable def artEmbed : Article :=
  { id := 2, title := pys "口腔溃疡怎么办", question_pattern := none,
    content := pys "多喝水，注意休息。", tags := none,
    embedding := some [(1 : ℝ)], is_active := true, updatedAt := 1 }

/-- C7 witness: one embedded article against a concrete question vector. -/
theorem c7_vector_similarity_witness :
    batchRank [(1 : ℝ)] [artEmbed] (3/10) 3
      = perArticleRank [(1 : ℝ)] [artEmbed] (3/10) 3 150
    ∧ ∀ p ∈ ([artEmbed].map fun a => (a, cosSim [(1 : ℝ)] (embOf a))).filter
        (fun p => decide ((3/10 : ℝ) ≤ p.2)), (3/10 : ℝ) ≤ p.2 := by
  have h := c7_vector_similarity [(1 : ℝ)] [artEmbed] 3 150 (by norm_num)
  exact ⟨h.1, h.2.2.2.2.1⟩

/-! ## C9: user-user similarity -/

/-- The total weighted score user `u` accumulates on doctor `d`
(the claim-side description of one dict entry). -/
def weightedScore (behaviors : List Behavior) (u d : Nat) : ℚ :=
  ((behaviors.filter fun b => b.userId == u && b.doctorId == some d).map
    fun b => b.score * actionWeight b.action).sum

/-- All doctor ids appearing in any behavior row: a common support for both
users' weighted vectors. -/
def doctorSupport (behaviors : List Behavior) : Finset Nat :=
  (behaviors.filterMap (·.doctorId)).toFinset

/-- The claim-side cosine of the two weighted doctor-score vectors. -/
noncomputable def claimCosine (behaviors : List Behavior) (u₁ u₂ : Nat) : ℝ :=
  ((∑ d ∈ doctorSupport behaviors,
      weightedScore behaviors u₁ d * weightedScore behaviors u₂ d : ℚ) : ℝ)
    / (Real.sqrt ((∑ d ∈ doctorSupport behaviors,
          (weightedScore behaviors u₁ d) ^ 2 : ℚ) : ℝ)
       * Real.sqrt ((∑ d ∈ doctorSupport behaviors,
          (weightedScore behaviors u₂ d) ^ 2 : ℚ) : ℝ))

theorem lookupScore_upsertAdd (m : List (Nat × ℚ)) (k : Nat) (v : ℚ)
    (d : Nat) :
    lookupScore (upsertAdd m k v) d
      = if d = k then lookupScore m d + v else lookupScore m d := by
  induction m with
  | nil =>
    by_cases hdk : d = k
    · subst hdk
      unfold upsertAdd lookupScore
      simp
    · unfold upsertAdd lookupScore
      rw [List.find?_cons_of_neg _ (by simpa using fun h : k = d => hdk h.symm)]
      simp [hdk]
  | cons q t ih =>
    rcases q with ⟨k₀, v₀⟩
    by_cases hk : k₀ = k
    · subst hk
      unfold upsertAdd
      rw [if_pos rfl]
      by_cases hdk : d = k₀
      · subst hdk
        unfold lookupScore
        rw [List.find?_cons_of_pos _ (by simp), List.find?_cons_of_pos _ (by simp)]
        simp
      · unfold lookupScore
        rw [List.find?_cons_of_neg _ (by simpa using fun h : k₀ = d => hdk h.symm),
            List.find?_cons_of_neg _ (by simpa using fun h : k₀ = d => hdk h.symm)]
        rw [if_neg hdk]
    · unfold upsertAdd
      rw [if_neg hk]
      by_cases hdq : d = k₀
      · subst hdq
        unfold lookupScore
        rw [List.find?_cons_of_pos _ (by simp), List.find?_cons_of_pos _ (by simp)]
        rw [if_neg hk]
      · show lookupScore ((k₀, v₀) :: upsertAdd t k v) d = _
        unfold lookupScore
        rw [List.find?_cons_of_neg _ (by simpa using fun h : k₀ = d => hdq h.symm),
            List.find?_cons_of_neg _ (by simpa using fun h : k₀ = d => hdq h.symm)]
        exact ih

theorem mem_keys_upsertAdd (m : List (Nat × ℚ)) (k : Nat) (v : ℚ) (d : Nat) :
    d ∈ (upsertAdd m k v).map Prod.fst ↔ d ∈ m.map Prod.fst ∨ d = k := by
  induction m with
  | nil => simp [upsertAdd]
  | cons q t ih =>
    unfold upsertAdd
    by_cases hk : q.1 = k
    · rw [if_pos hk]
      simp only [List.map_cons, List.mem_cons]
      constructor
      · rintro (rfl | h)
        · exact Or.inl (Or.inl rfl)
        · exact Or.inl (Or.inr h)
      · rintro ((rfl | h) | rfl)
        · exact Or.inl rfl
        · exact Or.inr h
        · exact Or.inl hk.symm
    · rw [if_neg hk]
      simp only [List.map_cons, List.mem_cons, ih]
      tauto

theorem nodup_keys_upsertAdd (m : List (Nat × ℚ)) (k : Nat) (v : ℚ)
    (h : (m.map Prod.fst).Nodup) :
    ((upsertAdd m k v).map Prod.fst).Nodup := by
  induction m with
  | nil => simp [upsertAdd]
  | cons q t ih =>
    rw [List.map_cons, List.nodup_cons] at h
    unfold upsertAdd
    by_cases hk : q.1 = k
    · rw [if_pos hk]
      rw [List.map_cons, List.nodup_cons]
      exact h
    · rw [if_neg hk]
      rw [List.map_cons, List.nodup_cons]
      refine ⟨?_, ih h.2⟩
      rw [mem_keys_upsertAdd]
      rintro (hm | rfl)
      · exact h.1 hm
      · exact hk rfl

theorem lookupScore_eq_zero_of_not_mem (m : List (Nat × ℚ)) (d : Nat)
    (h : d ∉ m.map Prod.fst) : lookupScore m d = 0 := by
  unfold lookupScore
  rw [List.find?_eq_none.mpr]
  · rfl
  · intro p hp hbeq
    exact h (List.mem_map.mpr ⟨p, hp, (beq_iff_eq.mp (by simpa using hbeq))⟩)

theorem lookupScore_of_mem {m : List (Nat × ℚ)} {k : Nat} {v : ℚ}
    (hnd : (m.map Prod.fst).Nodup) (hm : (k, v) ∈ m) :
    lookupScore m k = v := by
  induction m with
  | nil => simp at hm
  | cons q t ih =>
    rw [List.map_cons, List.nodup_cons] at hnd
    rcases List.mem_cons.mp hm with rfl | hm
    · unfold lookupScore
      rw [List.find?_cons_of_pos _ (by simp)]
      rfl
    · have hq : q.1 ≠ k := by
        rintro rfl
        exact hnd.1 (List.mem_map.mpr ⟨(q.1, v), hm, rfl⟩)
      unfold lookupScore at ih ⊢
      rw [List.find?_cons_of_neg _ (by simpa using hq)]
      exact ih hnd.2 hm

theorem userScores_go_lookup (l : List Behavior) :
    ∀ (m : List (Nat × ℚ)) (d : Nat),
      lookupScore (l.foldl (fun m b =>
          match b.doctorId with
          | some did => upsertAdd m did (b.score * actionWeight b.action)
          | none => m) m) d
        = lookupScore m d
          + ((l.filter fun b => b.doctorId == some d).map
              fun b => b.score * actionWeight b.action).sum := by
  induction l with
  | nil => intro m d; simp
  | cons b t ih =>
    intro m d
    rw [List.foldl_cons, List.filter_cons]
    cases hb : b.doctorId with
    | none =>
      simp only [hb]
      rw [ih m d]
      simp only [show ((none : Option Nat) == some d) = false from rfl,
        Bool.false_eq_true, if_false]
    | some did =>
      simp only [hb]
      rw [ih (upsertAdd m did (b.score * actionWeight b.action)) d,
        lookupScore_upsertAdd]
      by_cases hdd : d = did
      · subst hdd
        rw [if_pos rfl]
        simp only [show ((some d : Option Nat) == some d) = true from by simp,
          if_true, List.map_cons, List.sum_cons]
        ring
      · rw [if_neg hdd]
        simp only [show ((some did : Option Nat) == some d) = false from by
            simpa using fun h : did = d => hdd h.symm,
          Bool.false_eq_true, if_false]

theorem userScores_go_keys (l : List Behavior) :
    ∀ (m : List (Nat × ℚ)) (d : Nat),
      d ∈ (l.foldl (fun m b =>
          match b.doctorId with
          | some did => upsertAdd m did (b.score * actionWeight b.action)
          | none => m) m).map Prod.fst
        ↔ d ∈ m.map Prod.fst ∨ ∃ b ∈ l, b.doctorId = some d := by
  induction l with
  | nil => intro m d; simp
  | cons b t ih =>
    intro m d
    rw [List.foldl_cons]
    cases hb : b.doctorId with
    | none =>
      simp only [hb]
      rw [ih m d]
      constructor
      · rintro (h | ⟨b', hb', hd⟩)
        · exact Or.inl h
        · exact Or.inr ⟨b', List.mem_cons_of_mem _ hb', hd⟩
      · rintro (h | ⟨b', hb', hd⟩)
        · exact Or.inl h
        · rcases List.mem_cons.mp hb' with rfl | hb'
          · rw [hb] at hd; cases hd
          · exact Or.inr ⟨b', hb', hd⟩
    | some did =>
      simp only [hb]
      rw [ih (upsertAdd m did (b.score * actionWeight b.action)) d,
        mem_keys_upsertAdd]
      constructor
      · rintro ((h | rfl) | ⟨b', hb', hd⟩)
        · exact Or.inl h
        · exact Or.inr ⟨b, List.mem_cons_self _ _, hb⟩
        · exact Or.inr ⟨b', List.mem_cons_of_mem _ hb', hd⟩
      · rintro (h | ⟨b', hb', hd⟩)
        · exact Or.inl (Or.inl h)
        · rcases List.mem_cons.mp hb' with rfl | hb'
          · rw [hb] at hd
            exact Or.inl (Or.inr (Option.some.inj hd).symm)
          · exact Or.inr ⟨b', hb', hd⟩

theorem userScores_go_nodup (l : List Behavior) :
    ∀ m : List (Nat × ℚ), (m.map Prod.fst).Nodup →
      ((l.foldl (fun m b =>
          match b.doctorId with
          | some did => upsertAdd m did (b.score * actionWeight b.action)
          | none => m) m).map Prod.fst).Nodup := by
  induction l with
  | nil => intro m h; simpa using h
  | cons b t ih =>
    intro m h
    rw [List.foldl_cons]
    cases hb : b.doctorId with
    | none => simp only [hb]; exact ih m h
    | some did =>
      simp only [hb]
      exact ih _ (nodup_keys_upsertAdd m did _ h)

theorem userDoctorScores_lookup (bs : List Behavior) (u d : Nat) :
    lookupScore (userDoctorScores bs u) d = weightedScore bs u d := by
  unfold userDoctorScores weightedScore
  rw [userScores_go_lookup]
  rw [show lookupScore [] d = 0 from rfl, zero_add]
  congr 1
  rw [List.filter_filter]
  congr 1
  apply List.filter_congr
  intro b _
  cases hbd : b.doctorId with
  | none => simp [hbd]
  | some x => simp [hbd, Bool.and_comm]

theorem userDoctorScores_keys (bs : List Behavior) (u d : Nat) :
    d ∈ (userDoctorScores bs u).map Prod.fst
      ↔ ∃ b ∈ bs, b.userId = u ∧ b.doctorId = some d := by
  unfold userDoctorScores
  rw [userScores_go_keys]
  simp only [List.map_nil, List.not_mem_nil, false_or]
  constructor
  · rintro ⟨b, hb, hbd⟩
    rcases List.mem_filter.mp hb with ⟨hbs, hcond⟩
    rw [Bool.and_eq_true, beq_iff_eq] at hcond
    exact ⟨b, hbs, hcond.1, hbd⟩
  · rintro ⟨b, hbs, hu, hd⟩
    exact ⟨b, List.mem_filter.mpr ⟨hbs, by simp [hu, hd]⟩, hd⟩

theorem userDoctorScores_nodup (bs : List Behavior) (u : Nat) :
    ((userDoctorScores bs u).map Prod.fst).Nodup := by
  unfold userDoctorScores
  exact userScores_go_nodup _ [] (by simp)

theorem assoc_sum (f : Nat → ℚ → ℚ) :
    ∀ m : List (Nat × ℚ), (m.map Prod.fst).Nodup →
      (m.map fun p => f p.1 p.2).sum
        = ∑ d ∈ (m.map Prod.fst).toFinset, f d (lookupScore m d) := by
  intro m
  induction m with
  | nil => intro _; simp
  | cons q t ih =>
    intro hnd
    rcases q with ⟨k, v⟩
    rw [List.map_cons, List.nodup_cons] at hnd
    rw [List.map_cons, List.sum_cons, List.map_cons, List.toFinset_cons,
      Finset.sum_insert (by simpa using hnd.1)]
    have hk : lookupScore ((k, v) :: t) k = v := by
      unfold lookupScore
      rw [List.find?_cons_of_pos _ (by simp)]
      rfl
    have htail : ∀ d ∈ (t.map Prod.fst).toFinset,
        f d (lookupScore ((k, v) :: t) d) = f d (lookupScore t d) := by
      intro d hd
      have hkd : k ≠ d := fun h => hnd.1 (h ▸ List.mem_toFinset.mp hd)
      unfold lookupScore
      rw [List.find?_cons_of_neg _ (by simpa using hkd)]
    rw [hk, Finset.sum_congr rfl htail, ← ih hnd.2]

theorem keys_subset_support (bs : List Behavior) (u : Nat) :
    ((userDoctorScores bs u).map Prod.fst).toFinset ⊆ doctorSupport bs := by
  intro d hd
  rcases (userDoctorScores_keys bs u d).mp (List.mem_toFinset.mp hd)
    with ⟨b, hb, _, hbd⟩
  exact List.mem_toFinset.mpr (List.mem_filterMap.mpr ⟨b, hb, hbd⟩)

theorem weightedScore_eq_zero_of_not_key (bs : List Behavior) (u d : Nat)
    (h : d ∉ (userDoctorScores bs u).map Prod.fst) :
    weightedScore bs u d = 0 := by
  rw [← userDoctorScores_lookup]
  exact lookupScore_eq_zero_of_not_mem _ _ h

theorem normSq_eq (bs : List Behavior) (u : Nat) :
    normSq bs u = ∑ d ∈ doctorSupport bs, weightedScore bs u d ^ 2 := by
  unfold normSq
  rw [assoc_sum (fun _ v => v ^ 2) _ (userDoctorScores_nodup bs u)]
  rw [Finset.sum_congr rfl fun d _ => by rw [userDoctorScores_lookup]]
  exact Finset.sum_subset (keys_subset_support bs u) fun d _ hd => by
    rw [weightedScore_eq_zero_of_not_key bs u d
      fun hm => hd (List.mem_toFinset.mpr hm)]
    ring

theorem simDot_eq (bs : List Behavior) (u₁ u₂ : Nat) :
    simDot bs u₁ u₂
      = ∑ d ∈ doctorSupport bs,
          weightedScore bs u₁ d * weightedScore bs u₂ d := by
  unfold simDot commonEntries
  have hnd₁ := userDoctorScores_nodup bs u₁
  have hndc : (((userDoctorScores bs u₁).filter fun p =>
      (userDoctorScores bs u₂).any (·.1 == p.1)).map Prod.fst).Nodup :=
    hnd₁.sublist ((List.filter_sublist _).map Prod.fst)
  rw [assoc_sum (fun d v => v * lookupScore (userDoctorScores bs u₂) d) _ hndc]
  have hlc : ∀ d ∈ (((userDoctorScores bs u₁).filter fun p =>
      (userDoctorScores bs u₂).any (·.1 == p.1)).map Prod.fst).toFinset,
      lookupScore ((userDoctorScores bs u₁).filter fun p =>
        (userDoctorScores bs u₂).any (·.1 == p.1)) d
        = lookupScore (userDoctorScores bs u₁) d := by
    intro d hd
    rcases List.mem_map.mp (List.mem_toFinset.mp hd) with ⟨p, hp, rfl⟩
    rw [lookupScore_of_mem hndc hp,
      lookupScore_of_mem hnd₁ (List.mem_filter.mp hp).1]
  rw [Finset.sum_congr rfl fun d hd => by rw [hlc d hd]]
  rw [Finset.sum_congr rfl fun d _ => by
    rw [userDoctorScores_lookup, userDoctorScores_lookup]]
  apply Finset.sum_subset
  · intro d hd
    apply keys_subset_support bs u₁
    rcases List.mem_map.mp (List.mem_toFinset.mp hd) with ⟨p, hp, rfl⟩
    exact List.mem_toFinset.mpr
      (List.mem_map.mpr ⟨p, (List.mem_filter.mp hp).1, rfl⟩)
  · intro d _ hnotin
    by_cases h₁ : d ∈ (userDoctorScores bs u₁).map Prod.fst
    · rcases List.mem_map.mp h₁ with ⟨p, hp, rfl⟩
      have hpred : ((userDoctorScores bs u₂).any (·.1 == p.1)) = false := by
        by_contra hcon
        rw [Bool.not_eq_false] at hcon
        exact hnotin (List.mem_toFinset.mpr (List.mem_map.mpr
          ⟨p, List.mem_filter.mpr ⟨hp, hcon⟩, rfl⟩))
      have h₂ : p.1 ∉ (userDoctorScores bs u₂).map Prod.fst := by
        intro hm
        rcases List.mem_map.mp hm with ⟨q, hq, hqe⟩
        rw [List.any_eq_false] at hpred
        exact hpred q hq (by simpa using hqe)
      rw [weightedScore_eq_zero_of_not_key bs u₂ p.1 h₂, mul_zero]
    · rw [weightedScore_eq_zero_of_not_key bs u₁ d h₁, zero_mul]

theorem commonEntries_eq_nil_of (bs : List Behavior) (u₁ u₂ : Nat)
    (h : ∀ d : Nat, ¬((∃ b ∈ bs, b.userId = u₁ ∧ b.doctorId = some d)
        ∧ ∃ b ∈ bs, b.userId = u₂ ∧ b.doctorId = some d)) :
    commonEntries bs u₁ u₂ = [] := by
  unfold commonEntries
  rw [List.filter_eq_nil_iff]
  intro p hp
  rw [Bool.not_eq_true, List.any_eq_false]
  intro q hq
  simp only [beq_iff_eq, decide_eq_true_eq]
  intro hqe
  apply h p.1
  refine ⟨(userDoctorScores_keys bs u₁ p.1).mp (List.mem_map.mpr ⟨p, hp, rfl⟩), ?_⟩
  exact (userDoctorScores_keys bs u₂ p.1).mp
    (hqe ▸ List.mem_map.mpr ⟨q, hq, rfl⟩)

theorem commonEntries_isEmpty_false_of (bs : List Behavior) (u₁ u₂ : Nat)
    (h : ∃ d : Nat, (∃ b ∈ bs, b.userId = u₁ ∧ b.doctorId = some d)
        ∧ ∃ b ∈ bs, b.userId = u₂ ∧ b.doctorId = some d) :
    (commonEntries bs u₁ u₂).isEmpty = false := by
  rcases h with ⟨d, h₁, h₂⟩
  have hk₁ : d ∈ (userDoctorScores bs u₁).map Prod.fst :=
    (userDoctorScores_keys bs u₁ d).mpr h₁
  rcases List.mem_map.mp hk₁ with ⟨p, hp, rfl⟩
  have hk₂ : p.1 ∈ (userDoctorScores bs u₂).map Prod.fst :=
    (userDoctorScores_keys bs u₂ p.1).mpr h₂
  have hany : ((userDoctorScores bs u₂).any (·.1 == p.1)) = true := by
    rcases List.mem_map.mp hk₂ with ⟨q, hq, hqe⟩
    exact List.any_eq_true.mpr ⟨q, hq, by simp [hqe]⟩
  have hmem : p ∈ commonEntries bs u₁ u₂ :=
    List.mem_filter.mpr ⟨hp, hany⟩
  rw [Bool.eq_false_iff]
  intro hcon
  rw [List.isEmpty_iff] at hcon
  rw [hcon] at hmem
  simp at hmem

theorem actionWeight_pos (a : PyStr) : 0 < actionWeight a := by
  unfold actionWeight
  split_ifs <;> norm_num

theorem weightedScore_nonneg (bs : List Behavior) (u d : Nat)
    (h : ∀ b ∈ bs, 0 ≤ b.score) : 0 ≤ weightedScore bs u d := by
  unfold weightedScore
  apply List.sum_nonneg
  intro x hx
  rcases List.mem_map.mp hx with ⟨b, hb, rfl⟩
  exact mul_nonneg (h b (List.mem_of_mem_filter hb)) (actionWeight_pos _).le

theorem normSq_nonneg (bs : List Behavior) (u : Nat) : 0 ≤ normSq bs u := by
  unfold normSq
  apply List.sum_nonneg
  intro x hx
  rcases List.mem_map.mp hx with ⟨p, _, rfl⟩
  exact sq_nonneg _

theorem userNorm_eq_sqrt_sum (bs : List Behavior) (u : Nat) :
    userNorm bs u
      = Real.sqrt (∑ d ∈ doctorSupport bs,
          ((weightedScore bs u d : ℚ) : ℝ) ^ 2) := by
  unfold userNorm
  rw [normSq_eq]
  congr 1
  push_cast
  ring

/-- C9 (amended): `calculate_user_similarity` returns 0 when the users share
no commonly-interacted doctor or when either weighted-score vector has zero
norm, and otherwise returns the cosine of the two weighted doctor-score
vectors; the value always lies in [-1, 1], and lies in [0, 1] whenever every
behavior score is nonnegative (negative stored scores can drive it below
zero). -/
theorem c9_similarity_cosine (bs : List Behavior) (u₁ u₂ : Nat) :
    ((∀ d : Nat, ¬((∃ b ∈ bs, b.userId = u₁ ∧ b.doctorId = some d)
        ∧ ∃ b ∈ bs, b.userId = u₂ ∧ b.doctorId = some d)) →
      calcUserSimilarity bs u₁ u₂ = 0)
    ∧ (userNorm bs u₁ = 0 ∨ userNorm bs u₂ = 0 →
        calcUserSimilarity bs u₁ u₂ = 0)
    ∧ ((∃ d : Nat, (∃ b ∈ bs, b.userId = u₁ ∧ b.doctorId = some d)
          ∧ ∃ b ∈ bs, b.userId = u₂ ∧ b.doctorId = some d) →
        ¬(userNorm bs u₁ = 0 ∨ userNorm bs u₂ = 0) →
        calcUserSimilarity bs u₁ u₂ = claimCosine bs u₁ u₂)
    ∧ (-1 ≤ calcUserSimilarity bs u₁ u₂ ∧ calcUserSimilarity bs u₁ u₂ ≤ 1)
    ∧ ((∀ b ∈ bs, 0 ≤ b.score) → 0 ≤ calcUserSimilarity bs u₁ u₂) := by
  have hsd := simDot_eq bs u₁ u₂
  refine ⟨?_, ?_, ?_, ?_, ?_⟩
  · intro h
    unfold calcUserSimilarity
    rw [commonEntries_eq_nil_of bs u₁ u₂ h]
    simp
  · intro h
    unfold calcUserSimilarity
    by_cases hc : (commonEntries bs u₁ u₂).isEmpty = true
    · rw [if_pos hc]
    · rw [if_neg hc, if_pos h]
  · intro hex hn
    have hce := commonEntries_isEmpty_false_of bs u₁ u₂ hex
    unfold calcUserSimilarity
    rw [if_neg (by rw [hce]; exact Bool.false_ne_true), if_neg hn]
    unfold claimCosine userNorm
    rw [hsd, normSq_eq, normSq_eq]
  · by_cases hc : (commonEntries bs u₁ u₂).isEmpty = true
    · unfold calcUserSimilarity
      rw [if_pos hc]
      norm_num
    · by_cases hn : userNorm bs u₁ = 0 ∨ userNorm bs u₂ = 0
      · unfold calcUserSimilarity
        rw [if_neg hc, if_pos hn]
        norm_num
      · unfold calcUserSimilarity
        rw [if_neg hc, if_neg hn]
        rw [not_or] at hn
        have hpos₁ : 0 < userNorm bs u₁ :=
          lt_of_le_of_ne (Real.sqrt_nonneg _) (Ne.symm hn.1)
        have hpos₂ : 0 < userNorm bs u₂ :=
          lt_of_le_of_ne (Real.sqrt_nonneg _) (Ne.symm hn.2)
        have hprod : 0 < userNorm bs u₁ * userNorm bs u₂ := mul_pos hpos₁ hpos₂
        have hdotR : ((simDot bs u₁ u₂ : ℚ) : ℝ)
            = ∑ d ∈ doctorSupport bs,
                ((weightedScore bs u₁ d : ℚ) : ℝ)
                  * ((weightedScore bs u₂ d : ℚ) : ℝ) := by
          rw [hsd]
          push_cast
          rfl
        have hub : ((simDot bs u₁ u₂ : ℚ) : ℝ)
            ≤ userNorm bs u₁ * userNorm bs u₂ := by
          rw [hdotR, userNorm_eq_sqrt_sum, userNorm_eq_sqrt_sum]
          exact Real.sum_mul_le_sqrt_mul_sqrt _ _ _
        have hlb : -(userNorm bs u₁ * userNorm bs u₂)
            ≤ ((simDot bs u₁ u₂ : ℚ) : ℝ) := by
          have h2 := Real.sum_mul_le_sqrt_mul_sqrt (doctorSupport bs)
            (fun d => ((weightedScore bs u₁ d : ℚ) : ℝ))
            (fun d => -((weightedScore bs u₂ d : ℚ) : ℝ))
          simp only [mul_neg, Finset.sum_neg_distrib, neg_sq] at h2
          rw [userNorm_eq_sqrt_sum, userNorm_eq_sqrt_sum, hdotR]
          linarith
        constructor
        · rw [le_div_iff hprod]
          linarith
        · rw [div_le_one hprod]
          exact hub
  · intro hscores
    by_cases hc : (commonEntries bs u₁ u₂).isEmpty = true
    · unfold calcUserSimilarity
      rw [if_pos hc]
    · by_cases hn : userNorm bs u₁ = 0 ∨ userNorm bs u₂ = 0
      · unfold calcUserSimilarity
        rw [if_neg hc, if_pos hn]
      · unfold calcUserSimilarity
        rw [if_neg hc, if_neg hn]
        apply div_nonneg
        · have : (0 : ℚ) ≤ simDot bs u₁ u₂ := by
            rw [hsd]
            apply Finset.sum_nonneg
            intro d _
            exact mul_nonneg (weightedScore_nonneg bs u₁ d hscores)
              (weightedScore_nonneg bs u₂ d hscores)
          exact_mod_cast this
        · exact mul_nonneg (Real.sqrt_nonneg _) (Real.sqrt_nonneg _)

/-- A behavior with a negative stored score. -/
def bNeg : Behavior :=
  { userId := 1, action := pys "click_doctor", doctorId := some 5, score := -1 }

/-- A behavior with a positive stored score on the same doctor. -/
def bPos : Behavior :=
  { userId := 2, action := pys "click_doctor", doctorId := some 5, score := 1 }

/-- C9 counterexample: with one negative-score behavior the similarity is
−1, outside the claimed range [0, 1] (`UserBehavior.score` is an
unconstrained float column). -/
theorem c9_counterexample : calcUserSimilarity [bNeg, bPos] 1 2 < 0 := by
  have haw : actionWeight (pys "click_doctor") = 1 := rfl
  have hc : (commonEntries [bNeg, bPos] 1 2).isEmpty = false := rfl
  have hns₁ : normSq [bNeg, bPos] 1 = 1 := by
    show ((-1 : ℚ) * actionWeight (pys "click_doctor")) ^ 2 + 0 = 1
    rw [haw]
    norm_num
  have hns₂ : normSq [bNeg, bPos] 2 = 1 := by
    show ((1 : ℚ) * actionWeight (pys "click_doctor")) ^ 2 + 0 = 1
    rw [haw]
    norm_num
  have hn₁ : userNorm [bNeg, bPos] 1 = 1 := by
    unfold userNorm
    rw [hns₁, Rat.cast_one, Real.sqrt_one]
  have hn₂ : userNorm [bNeg, bPos] 2 = 1 := by
    unfold userNorm
    rw [hns₂, Rat.cast_one, Real.sqrt_one]
  have hl : lookupScore (userDoctorScores [bNeg, bPos] 2) 5
      = (1 : ℚ) * actionWeight (pys "click_doctor") := rfl
  have hdot : simDot [bNeg, bPos] 1 2 = -1 := by
    show ((-1 : ℚ) * actionWeight (pys "click_doctor"))
        * lookupScore (userDoctorScores [bNeg, bPos] 2) 5 + 0 = -1
    rw [hl, haw]
    norm_num
  unfold calcUserSimilarity
  rw [if_neg (by rw [hc]; exact Bool.false_ne_true)]
  rw [if_neg (by rw [hn₁, hn₂]; norm_num)]
  rw [hn₁, hn₂, hdot]
  norm_num

/-- C9 witness: the amended claim at a concrete behavior log with
nonnegative scores. -/
theorem c9_similarity_cosine_witness :
    (-1 ≤ calcUserSimilarity [bPos] 1 2 ∧ calcUserSimilarity [bPos] 1 2 ≤ 1)
    ∧ 0 ≤ calcUserSimilarity [bPos] 1 2 := by
  have h := c9_similarity_cosine [bPos] 1 2
  refine ⟨h.2.2.2.1, h.2.2.2.2 ?_⟩
  intro b hb
  rcases List.mem_cons.mp hb with rfl | hb
  · norm_num [bPos]
  · simp at hb

end AIInquiry
